import Mathlib

/-!
# go-lasm: a shallow embedding of `lasm.go`

The client of the smart-meter portal is a handful of request/response
functions around three library services: the HTTP client, `encoding/json`
and package `time`.  The embedding keeps the control flow of every function
of `lasm.go` and makes the services explicit:

* the HTTP client is a function from the request to what `client.Get` /
  `client.Post` hand back (a transport error, or a response with a status
  code and a body that `io.ReadAll` reads or fails to read);
* `json.Unmarshal(payload, &v)` is a function from the payload and the
  initial `v` to the final `v` and the error;
* `time.Date`, `Time.Add`, `Time.Format`, `time.Parse`, `fmt.Sprintf` and the
  string encoder of `json.Marshal` are written out after the Go library.

Go `error` values are identified with their message.
-/

namespace Lasm

/-! ## Package `time` -/

/-- A `time.Time` without monotonic reading, in location UTC: seconds since
the Unix epoch (Go's `unixSec()`, its field `ext` less `unixToInternal`) and
the nanoseconds within the second. -/
structure Time where
  sec : Int
  nsec : Int
deriving DecidableEq, Repr

/-- The instant as a count of nanoseconds since the Unix epoch. -/
def Time.unixNano (t : Time) : Int := t.sec * 1000000000 + t.nsec

/-- Go `Time.Before`. -/
def Time.Before (t u : Time) : Prop := t.sec < u.sec ∨ (t.sec = u.sec ∧ t.nsec < u.nsec)

instance (t u : Time) : Decidable (t.Before u) := by
  unfold Time.Before; exact inferInstance

/-- The zero `time.Time{}`: January 1, year 1, 00:00:00 UTC. -/
def Time.zero : Time := ⟨-62135596800, 0⟩

def Nanosecond : Int := 1
def Second : Int := 1000000000 * Nanosecond
def Minute : Int := 60 * Second

/-- Go `time.norm`: bring `lo` into `[0, base)`, carrying into `hi`. -/
def norm (hi lo base : Int) : Int × Int :=
  let p : Int × Int :=
    if lo < 0 then
      let n := (-lo - 1).tdiv base + 1
      (hi - n, lo + n * base)
    else (hi, lo)
  if p.2 ≥ base then
    let n := p.2.tdiv base
    (p.1 + n, p.2 - n * base)
  else p

/-- Go `time.isLeap`. -/
def isLeap (year : Int) : Bool :=
  year.tmod 4 == 0 && (year.tmod 100 != 0 || year.tmod 400 == 0)

/-- Go `time.daysBefore`: days before the first of month `m + 1` in a
non-leap year. -/
def daysBefore (m : Int) : Int :=
  [0, 31, 59, 90, 120, 151, 181, 212, 243, 273, 304, 334, 365].getD m.toNat 0

/-- Go `time.daysIn`. -/
def daysIn (m : Int) (year : Int) : Int :=
  if m = 2 ∧ isLeap year = true then 29 else daysBefore m - daysBefore (m - 1)

def absoluteZeroYear : Int := -292277022399
def secondsPerDay : Int := 86400
def daysPer400Years : Int := 365 * 400 + 97
def daysPer100Years : Int := 365 * 100 + 24
def daysPer4Years : Int := 365 * 4 + 1
def unixToInternal : Int := (1969 * 365 + 1969 / 4 - 1969 / 100 + 1969 / 400) * secondsPerDay
def internalToUnix : Int := -unixToInternal
def absoluteToInternal : Int := -9223371966579724800

/-- The largest and the smallest `int64`. -/
def maxInt64 : Int := 9223372036854775807
def minInt64 : Int := -9223372036854775808

/-- The `int64` that Go arithmetic gives for the exact result `x`: `x`
wrapped around into the `int64` range. -/
def wrapInt64 (x : Int) : Int := (x - minInt64) % 18446744073709551616 + minInt64

/-- Go `Time.addSec` on a time without monotonic reading.  Go keeps the
seconds since January 1, year 1 in the `int64` field `ext`, here
`t.sec + unixToInternal`; when the sum overflows, `ext` is set to the
largest (or the negated largest) `int64`. -/
def Time.addSec (t : Time) (d : Int) : Time :=
  let ext := t.sec + unixToInternal
  let sum := wrapInt64 (ext + d)
  if decide (sum > ext) = decide (d > 0) then ⟨sum - unixToInternal, t.nsec⟩
  else if d > 0 then ⟨maxInt64 - unixToInternal, t.nsec⟩
  else ⟨-maxInt64 - unixToInternal, t.nsec⟩

/-- Go `Time.Add` for a duration `d` in nanoseconds: the nanoseconds are
brought into `[0, 1e9)` and the seconds are added by `addSec`. -/
def Time.Add (t : Time) (d : Int) : Time :=
  let dsec := d.tdiv 1000000000
  let nsec := t.nsec + d.tmod 1000000000
  if nsec ≥ 1000000000 then (Time.mk t.sec (nsec - 1000000000)).addSec (dsec + 1)
  else if nsec < 0 then (Time.mk t.sec (nsec + 1000000000)).addSec (dsec - 1)
  else (Time.mk t.sec nsec).addSec dsec

/-- Go `time.daysSinceEpoch`: days from the absolute epoch to January 1 of
`year`. -/
def daysSinceEpoch (year : Int) : Int :=
  let y := year - absoluteZeroYear
  let n := y.tdiv 400
  let y := y - 400 * n
  let d := daysPer400Years * n
  let n := y.tdiv 100
  let y := y - 100 * n
  let d := d + daysPer100Years * n
  let n := y.tdiv 4
  let y := y - 4 * n
  let d := d + daysPer4Years * n
  d + 365 * y

/-- Go `time.Date(year, month, day, hour, min, sec, nsec, time.UTC)`. -/
def Date (year month day hour min sec nsec : Int) : Time :=
  let ym := norm year (month - 1) 12
  let year := ym.1
  let month := ym.2 + 1
  let sn := norm sec nsec 1000000000
  let ms := norm min sn.1 60
  let hm := norm hour ms.1 60
  let dh := norm day hm.1 24
  let d := daysSinceEpoch year + daysBefore (month - 1)
  let d := if isLeap year = true ∧ month ≥ 3 then d + 1 else d
  let d := d + (dh.1 - 1)
  let abs := d * secondsPerDay + (dh.2 * 3600 + hm.2 * 60 + ms.2)
  ⟨abs + (absoluteToInternal + internalToUnix), sn.2⟩

/-- The caller's `date time.Time` as its accessor methods show it: the civil
fields of the instant in the value's own location. -/
structure CivilTime where
  Year : Int
  Month : Int
  Day : Int
  Hour : Int
  Minute : Int
  Second : Int
  Nanosecond : Int
  zoneOffset : Int
deriving DecidableEq, Repr

/-- Go `time.appendInt`: decimal `x`, zero-padded to at least `width`
digits, with a leading minus sign for a negative `x`. -/
def appendInt (x : Int) (width : Nat) : List Char :=
  let ds := Nat.toDigits 10 x.natAbs
  (if x < 0 then ['-'] else []) ++ List.replicate (width - ds.length) '0' ++ ds

/-- The pieces `nextStdChunk` cuts a layout into, for the layouts of
`lasm.go`. -/
inductive Chunk
  | lit (c : Char)
  | stdLongYear
  | stdZeroMonth
  | stdZeroDay
  | stdHour
  | stdZeroMinute
  | stdZeroSecond
  | stdFracSecond9 (digits : Nat)
deriving DecidableEq, Repr

/-- Layout `"2006-01-02"`. -/
def layoutDay : List Chunk :=
  [.stdLongYear, .lit '-', .stdZeroMonth, .lit '-', .stdZeroDay]

/-- Layout `"2006-01-02T15:04:05"`. -/
def layoutSeconds : List Chunk :=
  [.stdLongYear, .lit '-', .stdZeroMonth, .lit '-', .stdZeroDay, .lit 'T',
   .stdHour, .lit ':', .stdZeroMinute, .lit ':', .stdZeroSecond]

/-- Layout `"2006-01-02T15:04:05.99"`. -/
def layoutFraction : List Chunk :=
  layoutSeconds ++ [.stdFracSecond9 2]

/-- Go `formatNano` for `stdFracSecond9`: the fraction to `n` digits with
trailing zeros (and then a bare period) removed. -/
def formatNano9 (nanosec : Int) (n : Nat) : List Char :=
  let ds := (appendInt nanosec 9).take n
  let ds := (ds.reverse.dropWhile (fun c => c == '0')).reverse
  if ds = [] then [] else '.' :: ds

/-- Go `Time.Format`, chunk by chunk. -/
def formatChunk (t : CivilTime) : Chunk → List Char
  | .lit c => [c]
  | .stdLongYear => appendInt t.Year 4
  | .stdZeroMonth => appendInt t.Month 2
  | .stdZeroDay => appendInt t.Day 2
  | .stdHour => appendInt t.Hour 2
  | .stdZeroMinute => appendInt t.Minute 2
  | .stdZeroSecond => appendInt t.Second 2
  | .stdFracSecond9 n => formatNano9 t.Nanosecond n

def CivilTime.Format (t : CivilTime) (layout : List Chunk) : String :=
  String.mk ((layout.map (formatChunk t)).flatten)

/-! ### `time.Parse` -/

/-- Go `isDigit(s, i)`: byte `i` of `s` exists and is a decimal digit. -/
def isDigit (s : List Char) (i : Nat) : Bool :=
  match s.get? i with
  | none => false
  | some c => decide ('0'.toNat ≤ c.toNat) && decide (c.toNat ≤ '9'.toNat)

/-- The value `c - '0'` of a digit. -/
def digitValue (c : Char) : Int := (c.toNat : Int) - ('0'.toNat : Int)

/-- Go `getnum`: parse `s[0:1]` or `s[0:2]` (`fixed` forces `s[0:2]`) as a
decimal integer; the integer and the rest of the string, or `none` for
`errBad`. -/
def getnum (s : List Char) (fixed : Bool) : Option (Int × List Char) :=
  if !isDigit s 0 then none
  else if !isDigit s 1 then
    if fixed then none
    else some (digitValue (s.getD 0 '0'), s.drop 1)
  else some (digitValue (s.getD 0 '0') * 10 + digitValue (s.getD 1 '0'), s.drop 2)

/-- Go `leadingInt`: consume the leading digits of `s`, continuing the
number `x`; `none` when the value overflows. -/
def leadingInt : List Char → Nat → Option (Nat × List Char)
  | [], x => some (x, [])
  | c :: rest, x =>
    if c.toNat < '0'.toNat ∨ c.toNat > '9'.toNat then some (x, c :: rest)
    else if x > 9223372036854775808 / 10 then none
    else
      let x1 := x * 10 + c.toNat - '0'.toNat
      if x1 > 9223372036854775808 then none
      else leadingInt rest x1

/-- Go `time.atoi`: an optional sign and digits up to the end of `s`. -/
def atoi (s : List Char) : Option Int :=
  let neg := decide (s.head? = some '-')
  let s1 := if s.head? = some '-' ∨ s.head? = some '+' then s.drop 1 else s
  match leadingInt s1 0 with
  | none => none
  | some (q, rem) =>
    if rem ≠ [] then none
    else if neg then some (-(q : Int)) else some (q : Int)

/-- Go `commaOrPeriod`. -/
def commaOrPeriod (c : Char) : Bool := c == '.' || c == ','

/-- Go `parseNanoseconds(value, nbytes)` (Go 1.17 and later): the fraction
`value[1:nbytes]` after the separator `value[0]`, scaled to nanoseconds; at
most nine digits count. -/
def parseNanoseconds (value : List Char) (nbytes : Nat) : Option Int :=
  if !commaOrPeriod (value.getD 0 ' ') then none
  else
    let value1 := if nbytes > 10 then value.take 10 else value
    let nbytes1 := if nbytes > 10 then 10 else nbytes
    match atoi ((value1.take nbytes1).drop 1) with
    | none => none
    | some ns =>
      if ns < 0 then none
      else some (ns * 10 ^ (10 - nbytes1))

/-- The number of digits that follow position `n - 1` of `value`, added to
`n`: the loop `for ; n < len(value) && isDigit(value, n); n++`. -/
def digitsEnd (value : List Char) (n : Nat) : Nat :=
  n + ((value.drop n).takeWhile (fun c => decide ('0'.toNat ≤ c.toNat) && decide (c.toNat ≤ '9'.toNat))).length

/-- The variables of `time.Parse`: the text still to be read and the fields
read so far. -/
structure ParseState where
  value : List Char
  year : Int
  month : Int
  day : Int
  hour : Int
  min : Int
  sec : Int
  nsec : Int
deriving DecidableEq, Repr

/-- The `std` that `nextStdChunk(layout)` returns: the first chunk of the
layout that is not literal text. -/
def nextStd : List Chunk → Option Chunk
  | [] => none
  | .lit _ :: rest => nextStd rest
  | c :: _ => some c

/-- The loop of Go `time.Parse` over the chunks of the layout (literal text
other than spaces); `none` stands for the returned `ParseError`. -/
def parseLoop : List Chunk → ParseState → Option ParseState
  | [], st =>
    -- std == 0: the layout is used up
    if st.value ≠ [] then none else some st
  | .lit c :: layout, st =>
    -- skip(value, prefix)
    match st.value with
    | [] => none
    | v :: rest => if v ≠ c then none else parseLoop layout { st with value := rest }
  | .stdLongYear :: layout, st =>
    if st.value.length < 4 ∨ !isDigit st.value 0 then none
    else
      match atoi (st.value.take 4) with
      | none => none
      | some year => parseLoop layout { st with value := st.value.drop 4, year := year }
  | .stdZeroMonth :: layout, st =>
    match getnum st.value true with
    | none => none
    | some (month, value) =>
      if month ≤ 0 ∨ 12 < month then none
      else parseLoop layout { st with value := value, month := month }
  | .stdZeroDay :: layout, st =>
    match getnum st.value true with
    | none => none
    | some (day, value) => parseLoop layout { st with value := value, day := day }
  | .stdHour :: layout, st =>
    match getnum st.value false with
    | none => none
    | some (hour, value) =>
      if hour < 0 ∨ 24 ≤ hour then none
      else parseLoop layout { st with value := value, hour := hour }
  | .stdZeroMinute :: layout, st =>
    match getnum st.value true with
    | none => none
    | some (min, value) =>
      if min < 0 ∨ 60 ≤ min then none
      else parseLoop layout { st with value := value, min := min }
  | .stdZeroSecond :: layout, st =>
    match getnum st.value true with
    | none => none
    | some (sec, value) =>
      if sec < 0 ∨ 60 ≤ sec then none
      else if value.length ≥ 2 ∧ commaOrPeriod (value.getD 0 ' ') = true ∧ isDigit value 1 = true then
        -- a fractional second in the input
        match nextStd layout with
        | some (.stdFracSecond9 _) =>
          -- fractional second in the layout; proceed normally
          parseLoop layout { st with value := value, sec := sec }
        | _ =>
          -- no fractional second in the layout but we have one in the input
          let n := digitsEnd value 2
          match parseNanoseconds value n with
          | none => none
          | some nsec =>
            parseLoop layout { st with value := value.drop n, sec := sec, nsec := nsec }
      else parseLoop layout { st with value := value, sec := sec }
  | .stdFracSecond9 _ :: layout, st =>
    if st.value.length < 2 ∨ !commaOrPeriod (st.value.getD 0 ' ') ∨ !isDigit st.value 1 then
      -- fractional second omitted
      parseLoop layout st
    else
      -- take any number of digits, even more than asked for
      let i := digitsEnd st.value 1 - 1
      match parseNanoseconds st.value (1 + i) with
      | none => none
      | some nsec => parseLoop layout { st with value := st.value.drop (1 + i), nsec := nsec }

/-- Go `time.Parse(layout, value)`: the fields are read by `parseLoop`, the
day of the month is validated, and the result is the `Date` of the fields in
UTC (the layouts of `lasm.go` carry no zone).  The text is read character by
character; what the layouts of `lasm.go` accept is ASCII, where characters
and Go's bytes are the same. -/
def Parse (layout : List Chunk) (value : String) : Option Time :=
  match parseLoop layout ⟨value.toList, 0, -1, -1, 0, 0, 0, 0⟩ with
  | none => none
  | some st =>
    let month := if st.month < 0 then 1 else st.month
    let day := if st.day < 0 then 1 else st.day
    if day < 1 ∨ day > daysIn month st.year then none
    else some (Date st.year month day st.hour st.min st.sec st.nsec)

/-- Go `strings.Trim(s, cutset)`. -/
def Trim (s : String) (cutset : String) : String :=
  String.mk ((s.toList.dropWhile (fun c => cutset.toList.contains c)).rdropWhile
    (fun c => cutset.toList.contains c))

/-- `LasmRegisterDate.UnmarshalJSON`: the new value of the receiver, or
`none` for the returned error (the receiver is then left as it was). -/
def LasmRegisterDate.UnmarshalJSON (b : String) : Option Time :=
  let s := Trim b "\""
  Parse layoutFraction s

/-- `ValidFromDate.UnmarshalJSON`. -/
def ValidFromDate.UnmarshalJSON (b : String) : Option Time :=
  let s := Trim b "\""
  Parse layoutSeconds s

/-- `MeterValueDate.UnmarshalJSON`. -/
def MeterValueDate.UnmarshalJSON (b : String) : Option Time :=
  let s := Trim b "\""
  Parse layoutSeconds s

/-! ## Package `fmt` -/

/-- Go `%d` of an `int`. -/
def formatInt (n : Int) : String :=
  if n < 0 then "-" ++ Nat.repr n.natAbs else Nat.repr n.natAbs

def longMonthNames : List String :=
  ["January", "February", "March", "April", "May", "June", "July", "August",
   "September", "October", "November", "December"]

/-- Go `time.Month.String`. -/
def Month.String (m : Int) : String :=
  if 1 ≤ m ∧ m ≤ 12 then longMonthNames.getD (m - 1).toNat ""
  else "%!Month(" ++ Nat.repr (m % 18446744073709551616).toNat ++ ")"

/-- An operand of `fmt.Sprintf` / `fmt.Errorf` as used in `lasm.go`. -/
inductive Arg
  | str (s : String)
  | int (n : Int)
  | month (m : Int)
deriving DecidableEq, Repr

def Arg.typeName : Arg → String
  | .str _ => "string"
  | .int _ => "int"
  | .month _ => "time.Month"

/-- Verb `%v`: a `Stringer` operand prints through its `String` method. -/
def Arg.formatV : Arg → String
  | .str s => s
  | .int n => formatInt n
  | .month m => Month.String m

/-- Go `printArg` for one verb without flags.  `%d` prints an operand of
integer kind in decimal, and `handleMethods` consults `String()` only for the
verbs `v s x X q`, so a `time.Month` under `%d` prints as a number. -/
def formatVerb (verb : Char) (a : Arg) : String :=
  if verb = 'v' then a.formatV
  else if verb = 's' then
    match a with
    | .str s => s
    | .month m => Month.String m
    | .int n => "%!s(int=" ++ formatInt n ++ ")"
  else if verb = 'd' then
    match a with
    | .int n => formatInt n
    | .month m => formatInt m
    | .str s => "%!d(string=" ++ s ++ ")"
  else "%!" ++ String.singleton verb ++ "(" ++ a.typeName ++ "=" ++ a.formatV ++ ")"

def formatExtra : List Arg → List String
  | [] => []
  | a :: rest => (a.typeName ++ "=" ++ a.formatV) :: formatExtra rest

/-- The note Go `doPrintf` appends for operands the format did not use. -/
def extraArgs (args : List Arg) : List Char :=
  if args = [] then [] else ("%!(EXTRA " ++ ", ".intercalate (formatExtra args) ++ ")").toList

/-- Go `doPrintf` on a format without flags, widths or argument indexes: text
is copied, `%%` is a percent sign, and each other `%` and verb prints the
next operand. -/
def doPrintf : List Char → List Arg → List Char
  | [], args => extraArgs args
  | c :: rest, args =>
    if c = '%' then
      match rest, args with
      | [], _ => "%!(NOVERB)".toList ++ extraArgs args
      | v :: rest1, [] =>
        if v = '%' then '%' :: doPrintf rest1 []
        else ("%!" ++ String.singleton v ++ "(MISSING)").toList ++ doPrintf rest1 []
      | v :: rest1, a :: args1 =>
        if v = '%' then '%' :: doPrintf rest1 (a :: args1)
        else (formatVerb v a).toList ++ doPrintf rest1 args1
    else c :: doPrintf rest args

def Sprintf (format : String) (args : List Arg) : String :=
  String.mk (doPrintf format.toList args)

/-- Go `fmt.Errorf` without `%w`: the error is its message. -/
def Errorf (format : String) (args : List Arg) : String :=
  Sprintf format args

/-! ## The data model of `lasm.go` -/

/-- A Go slice: `none` is the nil slice, `some l` a slice with the elements
of `l`. -/
abbrev Slice (α : Type) := Option (List α)

/-- Go `len`. -/
def Slice.len {α : Type} (s : Slice α) : Nat := (s.getD []).length

def AUTH_URL : String := "https://smartmeter.netz-noe.at/orchestration/Authentication/Login"
def BASIC_INFO_URL : String := "https://smartmeter.netz-noe.at/orchestration/User/GetBasicInfo"
def ACCOUNT_INFO_URL : String :=
  "https://smartmeter.netz-noe.at/orchestration/User/GetAccountIdByBussinespartnerId?context=2"
def METERING_POINT_INFO_URL : String :=
  "https://smartmeter.netz-noe.at/orchestration/User/GetMeteringPointByAccountId?accountId=%s&context=2"
def CONSUMPTION_DAY_URL : String :=
  "https://smartmeter.netz-noe.at/orchestration/ConsumptionRecord/Day?meterId=%s&day=%s"
def CONSUMPTION_MONTH_URL : String :=
  "https://smartmeter.netz-noe.at/orchestration/ConsumptionRecord/Month?meterId=%s&year=%d&month=%d"
def CONSUMPTION_YEAR_URL : String :=
  "https://smartmeter.netz-noe.at/orchestration/ConsumptionRecord/Year?meterId=%s&year=%d"

/-- Go `type RelationType string`: no `UnmarshalJSON` of its own. -/
abbrev RelationType := String

def FROM_GRID : RelationType := "Bezug"
def TO_GRID : RelationType := "Einspeisung"

/-- `BasicInfoResponse` encapsulates basic account information. -/
structure BasicInfoResponse where
  GpNumber : String
  TitlePre : String
  TitlePost : String
  FormOfAddress : String
  Name : String
  Surname : String
  RegisterDate : Time
  From : String
deriving DecidableEq, Repr

/-- The zero value `var nilValue BasicInfoResponse`. -/
def BasicInfoResponse.zero : BasicInfoResponse :=
  ⟨"", "", "", "", "", "", Time.zero, ""⟩

/-- `AccountInfoResponse` encapsulates detailed info about a specific
endpoint. -/
structure AccountInfoResponse where
  GpNumber : String
  AccountID : String
  ExternalPowerSupply : Bool
  HasSmartMeter : Bool
  HasElectricity : Bool
  HasGas : Bool
  IsCommunicative : Bool
  HasOptIn : Bool
  IsActive : Bool
deriving DecidableEq, Repr

/-- `MeterInfoResponse` encapsulates information about a specific metering
point. -/
structure MeterInfoResponse where
  Id : String
  TypeOfRelation : RelationType
  FtmReadOut : Bool
  FtmReadOutProvider : Bool
  CommunityProductionFacility : Bool
  HasFtmMeterData : Bool
  ValidFrom : Time
  SmartMeterType : String
  Locked : Bool
  PointOfConsumption : String
  Category : String
deriving DecidableEq, Repr

/-- `MeterValuesResponseDayMonth` is used in daily and monthly queries; `F`
stands for `float64`, which the client only copies. -/
structure MeterValuesResponseDayMonth (F : Type) where
  MeteredValues : Slice F
  MeteredPeakDemands : Slice F
  PeakDemandTimes : Slice Time
deriving DecidableEq, Repr

def MeterValuesResponseDayMonth.zero {F : Type} : MeterValuesResponseDayMonth F :=
  ⟨none, none, none⟩

/-- `MeterValuesResponseYear` is used when querying data for a whole year. -/
structure MeterValuesResponseYear (F : Type) where
  Values : Slice F
  PeakDemands : Slice F
  PeakDemandTimes : Slice Time
deriving DecidableEq, Repr

def MeterValuesResponseYear.zero {F : Type} : MeterValuesResponseYear F :=
  ⟨none, none, none⟩

structure MeterValue (F : Type) where
  Timestamp : Time
  MeteredValue : F
deriving DecidableEq, Repr

/-! ## The HTTP client and the JSON decoder as services -/

/-- An `*http.Response`: the status code, and what `io.ReadAll(resp.Body)`
gives, the payload or a read error. -/
structure Response (P : Type) where
  StatusCode : Int
  Body : Except String P

/-- The `http.Client` of a `LasmClient` at the moment of one call: for each
request the transport error or the response. -/
structure LasmClient (P : Type) where
  Get : String → Except String (Response P)
  Post : String → String → String → Except String (Response P)

/-- Go `json.Unmarshal(payload, &v)`: from the payload and the initial `v`
to the final `v` (which may be partly filled when decoding fails) and the
error. -/
abbrev Unmarshal (P α : Type) := P → α → α × Option String

def StatusOK : Int := 200

/-! ## Package `encoding/json`: the string encoder -/

/-- One step of Go's UTF-8 decoding of a `string` (`for range`,
`utf8.DecodeRuneInString`): a well-formed code point, or a single byte
(`0x80..0xff`) that is not part of a well-formed sequence. -/
inductive GoChar
  | rune (c : Char)
  | invalid (b : Nat)
deriving DecidableEq, Repr

/-- A Go `string` whose encoding matters: the sequence of steps of its UTF-8
decoding.  Strings the client only copies are Lean strings. -/
abbrev GoString := List GoChar

/-- A Go string that is valid text. -/
def GoString.ofString (s : String) : GoString := s.toList.map GoChar.rune

/-- Go `htmlSafeSet`: the ASCII characters `json.Marshal` copies as they
are. -/
def htmlSafeSet (c : Char) : Bool :=
  decide (0x20 ≤ c.toNat) && c != '"' && c != '\\' && c != '&' && c != '<' && c != '>'

/-- Go `const hex = "0123456789abcdef"`. -/
def hex (n : Nat) : Char := "0123456789abcdef".toList.getD n '0'

/-- One step of the loop of Go `appendString` with `escapeHTML` set. -/
def appendStringStep : GoChar → List Char
  | .invalid _ => ['\\', 'u', 'f', 'f', 'f', 'd']
  | .rune c =>
    if c.toNat < 0x80 then
      if htmlSafeSet c = true then [c]
      else if c = '\\' ∨ c = '"' then ['\\', c]
      else if c = '\x08' then ['\\', 'b']
      else if c = '\x0c' then ['\\', 'f']
      else if c = '\n' then ['\\', 'n']
      else if c = '\r' then ['\\', 'r']
      else if c = '\t' then ['\\', 't']
      else ['\\', 'u', '0', '0', hex (c.toNat >>> 4), hex (c.toNat &&& 0xF)]
    else if c = '\u2028' ∨ c = '\u2029' then
      ['\\', 'u', '2', '0', '2', hex (c.toNat &&& 0xF)]
    else [c]

/-- Go `appendString(dst, src, true)`: the JSON string literal for `src`. -/
def appendString (src : GoString) : List Char :=
  '"' :: ((src.map appendStringStep).flatten ++ ['"'])

/-- The members of a JSON object, written one after the other with commas
between them. -/
def encodeMembers : List (String × GoString) → List Char
  | [] => []
  | [(k, v)] => appendString (GoString.ofString k) ++ ':' :: appendString v
  | (k, v) :: rest =>
    appendString (GoString.ofString k) ++ ':' :: appendString v ++ ',' :: encodeMembers rest

/-- Go string comparison `a <= b` on keys, character by character. -/
def keyLE : List Char → List Char → Bool
  | [], _ => true
  | _ :: _, [] => false
  | a :: as, b :: bs => if a.toNat < b.toNat then true else if b.toNat < a.toNat then false else keyLE as bs

/-- Go `json.Marshal` of a `map[string]string`: the entries sorted by key,
as one object. -/
def Marshal (m : List (String × GoString)) : String :=
  String.mk ('{' ::
    (encodeMembers (m.insertionSort (fun a b => keyLE a.1.toList b.1.toList = true)) ++ ['}']))

/-! ## The operations of `LasmClient` -/

/-- `Login` is used to initiate a session with the smartmeter portal API.
The result is the returned `error`; `none` is `nil`. -/
def Login {P : Type} (c : LasmClient P) (username password : GoString) : Option String :=
  let postBody := Marshal [("user", username), ("pwd", password)]
  match c.Post AUTH_URL "application/json" postBody with
  | .error err => some (Errorf "could not login: %s" [.str err])
  | .ok resp =>
    if resp.StatusCode ≠ StatusOK then
      some (Errorf "login failed, status code: %d" [.int resp.StatusCode])
    else none

/-- `GetBasicInfo` returns basic information about the account. -/
def GetBasicInfo {P : Type} (c : LasmClient P) (unmarshal : Unmarshal P BasicInfoResponse) :
    BasicInfoResponse × Option String :=
  let nilValue := BasicInfoResponse.zero
  match c.Get BASIC_INFO_URL with
  | .error err => (nilValue, some (Errorf "could not retrieve basic info: %s" [.str err]))
  | .ok basicInfoResponse =>
    if basicInfoResponse.StatusCode ≠ StatusOK then
      (nilValue, some (Errorf "could not retrieve basic info, status code: %d"
        [.int basicInfoResponse.StatusCode]))
    else
      match basicInfoResponse.Body with
      | .error err => (nilValue, some (Errorf "could not read basic info payload: %s" [.str err]))
      | .ok basicInfoPayload =>
        match unmarshal basicInfoPayload BasicInfoResponse.zero with
        | (_, some err) =>
          (nilValue, some (Errorf "could not unmarshal basic info payload: %s" [.str err]))
        | (basicInfo, none) => (basicInfo, none)

/-- `GetAccountInfos` returns a list of AccountInfo information, which
encapsulates different metering points. -/
def GetAccountInfos {P : Type} (c : LasmClient P)
    (unmarshal : Unmarshal P (Slice AccountInfoResponse)) :
    Slice AccountInfoResponse × Option String :=
  let nilValue : Slice AccountInfoResponse := none
  match c.Get ACCOUNT_INFO_URL with
  | .error err => (nilValue, some (Errorf "could not retrieve account info: %s" [.str err]))
  | .ok accountInfoResponse =>
    if accountInfoResponse.StatusCode ≠ StatusOK then
      (nilValue, some (Errorf "could not retrieve account info, status code: %d"
        [.int accountInfoResponse.StatusCode]))
    else
      match accountInfoResponse.Body with
      | .error err =>
        (nilValue, some (Errorf "could not read account info payload: %s" [.str err]))
      | .ok accountInfoPayload =>
        match unmarshal accountInfoPayload none with
        | (_, some err) =>
          (nilValue, some (Errorf "could not unmarshal account info payload: %s" [.str err]))
        | (accountInfos, none) => (accountInfos, none)

/-- `GetMeterInfos` returns the list of metering points to a specific
account. -/
def GetMeterInfos {P : Type} (c : LasmClient P)
    (unmarshal : Unmarshal P (Slice MeterInfoResponse)) (accountId : String) :
    Slice MeterInfoResponse × Option String :=
  let nilValue : Slice MeterInfoResponse := none
  let meterRequestUrl := Sprintf METERING_POINT_INFO_URL [.str accountId]
  match c.Get meterRequestUrl with
  | .error err => (nilValue, some (Errorf "could not retrieve meter info: %s" [.str err]))
  | .ok meterInfoResponse =>
    if meterInfoResponse.StatusCode ≠ StatusOK then
      (nilValue, some (Errorf "could not retrieve meter info, status code: %d"
        [.int meterInfoResponse.StatusCode]))
    else
      match meterInfoResponse.Body with
      | .error err => (nilValue, some (Errorf "could not read meter info payload: %s" [.str err]))
      | .ok meterInfoPayload =>
        match unmarshal meterInfoPayload none with
        | (_, some err) =>
          (nilValue, some (Errorf "could not unmarshal meter info payload: %s" [.str err]))
        | (meterInfos, none) => (meterInfos, none)

/-- The loop of `GetConsumptionByMeterAndDate`: element `i` of the result is
built from the running `ts` and the `i`-th value, then `ts` advances by
`interval`. -/
def fillValues {F : Type} (interval : Int) : Time → List F → List (MeterValue F)
  | _, [] => []
  | ts, value :: rest =>
    let newValue : MeterValue F := { Timestamp := ts, MeteredValue := value }
    newValue :: fillValues interval (ts.Add interval) rest

/-- The URL `GetConsumptionByMeterAndDate` requests. -/
def dayRequestUrl (meterId : String) (date : CivilTime) : String :=
  let dateFormatted := date.Format layoutDay
  Sprintf CONSUMPTION_DAY_URL [.str meterId, .str dateFormatted]

/-- `GetConsumptionByMeterAndDate` returns a list of values for a specific
day, typically in a 15 minutes interval. -/
def GetConsumptionByMeterAndDate {P F : Type} (c : LasmClient P)
    (unmarshal : Unmarshal P (MeterValuesResponseDayMonth F)) (meterId : String)
    (date : CivilTime) :
    MeterValuesResponseDayMonth F × Slice (MeterValue F) × Option String :=
  let nilValue : MeterValuesResponseDayMonth F := MeterValuesResponseDayMonth.zero
  let dataRequestUrl := dayRequestUrl meterId date
  match c.Get dataRequestUrl with
  | .error err => (nilValue, none, some (Errorf "could not retrieve meter info: %s" [.str err]))
  | .ok meterValuesResponse =>
    if meterValuesResponse.StatusCode ≠ StatusOK then
      (nilValue, none, some (Errorf "could not retrieve meter info, status code: %d"
        [.int meterValuesResponse.StatusCode]))
    else
      match meterValuesResponse.Body with
      | .error err =>
        (nilValue, none, some (Errorf "could not read meter info payload: %s" [.str err]))
      | .ok meterValuesPayload =>
        match unmarshal meterValuesPayload MeterValuesResponseDayMonth.zero with
        | (_, some err) =>
          (nilValue, none, some (Errorf "could not unmarshal meter info payload: %s" [.str err]))
        | (meterValues, none) =>
          let interval := Minute * 15
          let ts := Date date.Year date.Month date.Day 0 15 0 0
          let values := fillValues interval ts (meterValues.MeteredValues.getD [])
          (meterValues, some values, none)

/-- The URL `GetConsumptionByMeterAndYearAndMonth` requests. -/
def monthRequestUrl (meterId : String) (date : CivilTime) : String :=
  let year := date.Year
  let month := date.Month
  Sprintf CONSUMPTION_MONTH_URL [.str meterId, .int year, .month month]

/-- `GetConsumptionByMeterAndYearAndMonth` returns a list of daily values
for a specific month of a year. -/
def GetConsumptionByMeterAndYearAndMonth {P F : Type} (c : LasmClient P)
    (unmarshal : Unmarshal P (MeterValuesResponseDayMonth F)) (meterId : String)
    (date : CivilTime) : MeterValuesResponseDayMonth F × Option String :=
  let nilValue : MeterValuesResponseDayMonth F := MeterValuesResponseDayMonth.zero
  let dataRequestUrl := monthRequestUrl meterId date
  match c.Get dataRequestUrl with
  | .error err => (nilValue, some (Errorf "could not retrieve meter info: %s" [.str err]))
  | .ok meterValuesResponse =>
    if meterValuesResponse.StatusCode ≠ StatusOK then
      (nilValue, some (Errorf "could not retrieve meter info, status code: %d"
        [.int meterValuesResponse.StatusCode]))
    else
      match meterValuesResponse.Body with
      | .error err => (nilValue, some (Errorf "could not read meter info payload: %s" [.str err]))
      | .ok meterValuesPayload =>
        match unmarshal meterValuesPayload MeterValuesResponseDayMonth.zero with
        | (_, some err) =>
          (nilValue, some (Errorf "could not unmarshal meter info payload: %s" [.str err]))
        | (meterValues, none) => (meterValues, none)

/-- The URL `GetConsumptionByMeterAndYear` requests. -/
def yearRequestUrl (meterId : String) (date : CivilTime) : String :=
  let year := date.Year
  Sprintf CONSUMPTION_YEAR_URL [.str meterId, .int year]

/-- `GetConsumptionByMeterAndYear` returns a list of monthly values for a
specific year. -/
def GetConsumptionByMeterAndYear {P F : Type} (c : LasmClient P)
    (unmarshal : Unmarshal P (MeterValuesResponseYear F)) (meterId : String)
    (date : CivilTime) : MeterValuesResponseYear F × Option String :=
  let nilValue : MeterValuesResponseYear F := MeterValuesResponseYear.zero
  let dataRequestUrl := yearRequestUrl meterId date
  match c.Get dataRequestUrl with
  | .error err => (nilValue, some (Errorf "could not retrieve meter info: %s" [.str err]))
  | .ok meterValuesResponse =>
    if meterValuesResponse.StatusCode ≠ StatusOK then
      (nilValue, some (Errorf "could not retrieve meter info, status code: %d"
        [.int meterValuesResponse.StatusCode]))
    else
      match meterValuesResponse.Body with
      | .error err => (nilValue, some (Errorf "could not read meter info payload: %s" [.str err]))
      | .ok meterValuesPayload =>
        match unmarshal meterValuesPayload MeterValuesResponseYear.zero with
        | (_, some err) =>
          (nilValue, some (Errorf "could not unmarshal meter info payload: %s" [.str err]))
        | (meterValues, none) => (meterValues, none)

/-! ## Sample inputs -/

/-- A portal that answers every request with the given status code and
body. -/
def constantClient {P : Type} (status : Int) (body : Except String P) : LasmClient P :=
  { Get := fun _ => .ok ⟨status, body⟩, Post := fun _ _ _ => .ok ⟨status, body⟩ }

/-- A decoder that succeeds with the given value. -/
def decodeTo {P α : Type} (v : α) : Unmarshal P α := fun _ _ => (v, none)

/-- A decoder that fails after it has filled in the given value. -/
def decodeFailing {P α : Type} (v : α) (err : String) : Unmarshal P α := fun _ _ => (v, some err)

/-- May 1st 2021, 23:30 in a zone two hours east of UTC. -/
def sampleDate : CivilTime := ⟨2021, 5, 1, 23, 30, 0, 0, 7200⟩

/-- December 6th of the year 292277024627, the day on which the largest
instant of a `time.Time` falls (at 15:30:07 UTC). -/
def lateDate : CivilTime := ⟨292277024627, 12, 6, 0, 0, 0, 0, 0⟩

/-- A day response with 64 metered values. -/
def lateDay : MeterValuesResponseDayMonth Nat := ⟨some (List.replicate 64 0), none, none⟩

/-- A day response with three metered values. -/
def sampleDay : MeterValuesResponseDayMonth Nat := ⟨some [5, 7, 11], some [1, 2, 3], none⟩

/-- A decoded account. -/
def sampleBasicInfo : BasicInfoResponse :=
  ⟨"4711", "", "", "Herr", "Max", "Muster", ⟨1619863200, 120000000⟩, ""⟩

/-- A decoded year response. -/
def sampleYear : MeterValuesResponseYear Nat := ⟨some [100, 200], none, none⟩

/-! ## Date strings -/

/-- The character of a decimal digit. -/
def digit (d : Fin 10) : Char := Char.ofNat (48 + d.val)

/-- The fourteen digits of a text `YYYY-MM-DDTHH:MM:SS`. -/
structure Stamp where
  y3 : Fin 10
  y2 : Fin 10
  y1 : Fin 10
  y0 : Fin 10
  mo1 : Fin 10
  mo0 : Fin 10
  d1 : Fin 10
  d0 : Fin 10
  h1 : Fin 10
  h0 : Fin 10
  mi1 : Fin 10
  mi0 : Fin 10
  s1 : Fin 10
  s0 : Fin 10
deriving DecidableEq, Repr

def Stamp.year (t : Stamp) : Int := 1000 * t.y3.val + 100 * t.y2.val + 10 * t.y1.val + t.y0.val
def Stamp.month (t : Stamp) : Int := 10 * t.mo1.val + t.mo0.val
def Stamp.day (t : Stamp) : Int := 10 * t.d1.val + t.d0.val
def Stamp.hour (t : Stamp) : Int := 10 * t.h1.val + t.h0.val
def Stamp.minute (t : Stamp) : Int := 10 * t.mi1.val + t.mi0.val
def Stamp.second (t : Stamp) : Int := 10 * t.s1.val + t.s0.val

/-- The text `YYYY-MM-DDTHH:MM:SS` with the digits of `t`. -/
def Stamp.text (t : Stamp) : List Char :=
  [digit t.y3, digit t.y2, digit t.y1, digit t.y0, '-', digit t.mo1, digit t.mo0, '-',
   digit t.d1, digit t.d0, 'T', digit t.h1, digit t.h0, ':', digit t.mi1, digit t.mi0, ':',
   digit t.s1, digit t.s0]

/-- The fields of `t` are a calendar date and a time of day. -/
def Stamp.valid (t : Stamp) : Prop :=
  1 ≤ t.month ∧ t.month ≤ 12 ∧ 1 ≤ t.day ∧ t.day ≤ daysIn t.month t.year ∧
  t.hour < 24 ∧ t.minute < 60 ∧ t.second < 60

instance (t : Stamp) : Decidable t.valid := by
  unfold Stamp.valid; exact inferInstance

/-- The text of a fractional-second part: nothing for no digits, else a
period and the digits. -/
def fractionText (frac : List (Fin 10)) : List Char :=
  if frac = [] then [] else '.' :: frac.map digit

/-- The number the digits `ds` spell, continuing `x`. -/
def digitsValue (ds : List (Fin 10)) (x : Nat) : Nat :=
  ds.foldl (fun acc d => acc * 10 + d.val) x

/-- The nanoseconds a fraction stands for: its first nine digits, scaled. -/
def fractionNanos (frac : List (Fin 10)) : Int :=
  (digitsValue (frac.take 9) 0 : Nat) * 10 ^ (9 - (frac.take 9).length)

/-- The raw JSON string literal around a text without escapes. -/
def quoted (text : List Char) : String := String.mk ('"' :: (text ++ ['"']))

/-- The digits of `2021-05-01T10:00:00`. -/
def sampleStamp : Stamp := ⟨2, 0, 2, 1, 0, 5, 0, 1, 1, 0, 0, 0, 0, 0⟩

/-! ## Package `encoding/json`: the decoder -/

/-- The value of a hexadecimal digit, as Go `getu4` reads it. -/
def hexValue (c : Char) : Option Nat :=
  if '0'.toNat ≤ c.toNat ∧ c.toNat ≤ '9'.toNat then some (c.toNat - '0'.toNat)
  else if 'a'.toNat ≤ c.toNat ∧ c.toNat ≤ 'f'.toNat then some (c.toNat - 'a'.toNat + 10)
  else if 'A'.toNat ≤ c.toNat ∧ c.toNat ≤ 'F'.toNat then some (c.toNat - 'A'.toNat + 10)
  else none

/-- Go `getu4` on the four characters after `\u`. -/
def getu4 (h1 h2 h3 h4 : Char) : Option Nat :=
  match hexValue h1, hexValue h2, hexValue h3, hexValue h4 with
  | some a, some b, some c, some d => some (((a * 16 + b) * 16 + c) * 16 + d)
  | _, _, _, _ => none

/-- Go `getu4(s[r:])` for what follows a surrogate: the value of a `\uXXXX`
at the head of the text, if there is one. -/
def lowHalf : List Char → Option Nat
  | c :: e :: k1 :: k2 :: k3 :: k4 :: _ => if c = '\\' ∧ e = 'u' then getu4 k1 k2 k3 k4 else none
  | _ => none

/-- Go `utf16.DecodeRune`, with `none` for the replacement character. -/
def decodeRune (r1 r2 : Nat) : Option Nat :=
  if 0xd800 ≤ r1 ∧ r1 < 0xdc00 ∧ 0xdc00 ≤ r2 ∧ r2 < 0xe000 then
    some ((r1 - 0xd800) * 1024 + (r2 - 0xdc00) + 0x10000)
  else none

/-- The character a one-letter escape stands for. -/
def escapeChar (e : Char) : Option Char :=
  if e = '"' ∨ e = '\\' ∨ e = '/' then some e
  else if e = 'b' then some '\x08'
  else if e = 'f' then some '\x0c'
  else if e = 'n' then some '\n'
  else if e = 'r' then some '\r'
  else if e = 't' then some '\t'
  else none

/-- One step through the body of a JSON string literal, as the scanner and
`unquote` of `encoding/json` take it: `none` for a syntax error,
`some (none, rest)` at the closing quote, `some (some ch, rest)` for one
decoded character. -/
def decodeStep : List Char → Option (Option Char × List Char)
  | [] => none
  | c :: rest =>
    if c = '"' then some (none, rest)
    else if c = '\\' then
      match rest with
      | [] => none
      | e :: rest1 =>
        if e = 'u' then
          match rest1 with
          | h1 :: h2 :: h3 :: h4 :: rest2 =>
            match getu4 h1 h2 h3 h4 with
            | none => none
            | some rr =>
              if 0xd800 ≤ rr ∧ rr < 0xe000 then
                match (lowHalf rest2).bind (decodeRune rr) with
                | some dec => some (some (Char.ofNat dec), rest2.drop 6)
                | none => some (some (Char.ofNat 0xfffd), rest2)
              else some (some (Char.ofNat rr), rest2)
          | _ => none
        else
          match escapeChar e with
          | some ch => some (some ch, rest1)
          | none => none
    else if c.toNat < 0x20 then none
    else some (some c, rest)

/-- Read a JSON string literal after its opening quote: the string it stands
for and the text after its closing quote.  Every step consumes a character,
so fuel above the length of the text is enough. -/
def decodeString : Nat → List Char → Option (List Char × List Char)
  | 0, _ => none
  | fuel + 1, input =>
    match decodeStep input with
    | none => none
    | some (none, rest) => some ([], rest)
    | some (some ch, rest) =>
      match decodeString fuel rest with
      | none => none
      | some (s, rest1) => some (ch :: s, rest1)

/-- Go `isSpace` of the JSON scanner. -/
def isSpace (c : Char) : Bool := c == ' ' || c == '\t' || c == '\r' || c == '\n'

def skipSpace (s : List Char) : List Char := s.dropWhile isSpace

/-- The members of a JSON object whose values are strings, from the first
key to the closing brace and the end of the text. -/
def decodeMembers : Nat → List Char → Option (List (String × String))
  | 0, _ => none
  | fuel + 1, s =>
    match s with
    | [] => none
    | q :: r =>
      if q ≠ '"' then none
      else
        match decodeString (r.length + 1) r with
        | none => none
        | some (key, r1) =>
          match skipSpace r1 with
          | [] => none
          | colon :: r2 =>
            if colon ≠ ':' then none
            else
              match skipSpace r2 with
              | [] => none
              | q1 :: r3 =>
                if q1 ≠ '"' then none
                else
                  match decodeString (r3.length + 1) r3 with
                  | none => none
                  | some (val, r4) =>
                    match skipSpace r4 with
                    | [] => none
                    | sep :: r5 =>
                      if sep = ',' then
                        match decodeMembers fuel (skipSpace r5) with
                        | none => none
                        | some ms => some ((String.mk key, String.mk val) :: ms)
                      else if sep = '}' then
                        if skipSpace r5 = [] then some [(String.mk key, String.mk val)] else none
                      else none

/-- Go `json.Unmarshal(data, &m)` for `m map[string]string`: the entries in
the order of the text, or `none` for an error. -/
def UnmarshalStringMap (data : String) : Option (List (String × String)) :=
  match skipSpace data.toList with
  | [] => none
  | b :: r =>
    if b ≠ '{' then none
    else
      match skipSpace r with
      | [] => none
      | c :: r1 =>
        if c = '}' then (if skipSpace r1 = [] then some [] else none)
        else decodeMembers data.length (c :: r1)

/-- The character that stands for one step of a Go string once it is
coerced to valid UTF-8: the code point itself, or U+FFFD for an invalid
byte. -/
def coerceChar : GoChar → Char
  | .rune c => c
  | .invalid _ => Char.ofNat 0xfffd

/-- A Go string coerced to valid UTF-8. -/
def GoString.toValidUTF8 (s : GoString) : String := String.mk (s.map coerceChar)

/-- The body of the literal `appendString` writes, without the quotes. -/
def stringBody (src : GoString) : List Char := (src.map appendStringStep).flatten

/-- A JSON value inside a document, as the decoder meets it after the scanner
has accepted the text: its kind and its raw text.  For a string, `body` is
the raw text between the quotes. -/
inductive JValue
  | null
  | bool (b : Bool)
  | number (text : String)
  | string (body : List Char)
  | composite (text : String)
deriving DecidableEq, Repr

/-- The bytes of the value, as they are handed to an `UnmarshalJSON`. -/
def JValue.raw : JValue → String
  | .null => "null"
  | .bool true => "true"
  | .bool false => "false"
  | .number text => text
  | .string body => String.mk ('"' :: (body ++ ['"']))
  | .composite text => text

/-- The scanner's check of the body of a string literal (RFC 8259): plain
characters from U+0020 on other than the quote and the backslash, the
one-letter escapes, and `\u` with four hexadecimal digits. -/
def validBody : Nat → List Char → Bool
  | 0, _ => false
  | _ + 1, [] => true
  | fuel + 1, c :: rest =>
    if c = '"' then false
    else if c = '\\' then
      match rest with
      | [] => false
      | e :: rest1 =>
        if e = 'u' then
          match rest1 with
          | h1 :: h2 :: h3 :: h4 :: rest2 =>
            (hexValue h1).isSome && (hexValue h2).isSome && (hexValue h3).isSome &&
              (hexValue h4).isSome && validBody fuel rest2
          | _ => false
        else (escapeChar e).isSome && validBody fuel rest1
    else if c.toNat < 0x20 then false
    else validBody fuel rest

/-- The body of a string literal is well formed. -/
def JValue.validString (body : List Char) : Prop := validBody (body.length + 1) body = true

instance (body : List Char) : Decidable (JValue.validString body) := by
  unfold JValue.validString; exact inferInstance

/-- A code point of the content of a JSON string (RFC 8259, section 7): a
Unicode scalar value, or a surrogate that a `\u` escape writes without a
partner. -/
inductive JsonCodePoint
  | scalar (c : Char)
  | surrogate (u : Nat)
deriving DecidableEq, Repr

/-- The content of a JSON string, one step through the body of its literal:
a plain character stands for itself, a one-letter escape for its character,
`\uXXXX` for the code unit `XXXX`, and a high surrogate followed by a low one
for the code point of the pair.  `none` for a syntax error,
`some (none, rest)` at the closing quote. -/
def contentStep : List Char → Option (Option JsonCodePoint × List Char)
  | [] => none
  | c :: rest =>
    if c = '"' then some (none, rest)
    else if c = '\\' then
      match rest with
      | [] => none
      | e :: rest1 =>
        if e = 'u' then
          match rest1 with
          | h1 :: h2 :: h3 :: h4 :: rest2 =>
            match getu4 h1 h2 h3 h4 with
            | none => none
            | some rr =>
              if 0xd800 ≤ rr ∧ rr < 0xe000 then
                match (lowHalf rest2).bind (decodeRune rr) with
                | some dec => some (some (.scalar (Char.ofNat dec)), rest2.drop 6)
                | none => some (some (.surrogate rr), rest2)
              else some (some (.scalar (Char.ofNat rr)), rest2)
          | _ => none
        else
          match escapeChar e with
          | some ch => some (some (.scalar ch), rest1)
          | none => none
    else if c.toNat < 0x20 then none
    else some (some (.scalar c), rest)

/-- The content of the JSON string literal whose body starts the text, and
the text after its closing quote. -/
def contentString : Nat → List Char → Option (List JsonCodePoint × List Char)
  | 0, _ => none
  | fuel + 1, input =>
    match contentStep input with
    | none => none
    | some (none, rest) => some ([], rest)
    | some (some cp, rest) =>
      match contentString fuel rest with
      | none => none
      | some (s, rest1) => some (cp :: s, rest1)

/-- The content of the JSON string with the given body. -/
def JValue.content (body : List Char) : Option (List JsonCodePoint) :=
  match contentString (body.length + 2) (body ++ ['"']) with
  | some (cs, []) => some cs
  | _ => none

/-- The character a Go string holds for a code point of the content: the
scalar value itself, and U+FFFD for a surrogate without partner. -/
def JsonCodePoint.toChar : JsonCodePoint → Char
  | .scalar c => c
  | .surrogate _ => Char.ofNat 0xfffd

/-- Go `literalStore` / `d.value` into a destination of kind `string` (a
field of type `string` or `RelationType`, which has no `UnmarshalJSON`): the
new value of the destination and the `UnmarshalTypeError` to save, if any.
The texts of the decoder's errors are not those of Go. -/
def storeString (v : JValue) (dst : String) : String × Option String :=
  match v with
  | .null => (dst, none)
  | .string body =>
    match decodeString (body.length + 2) (body ++ ['"']) with
    | some (s, []) => (String.mk s, none)
    | _ => (dst, some "json: invalid string literal")
  | .bool _ => (dst, some "json: cannot unmarshal bool into Go value of type string")
  | .number _ => (dst, some "json: cannot unmarshal number into Go value of type string")
  | .composite _ => (dst, some "json: cannot unmarshal array or object into Go value of type string")

/-- Go `foldName` on a key, as far as it can meet a field name of
`lasm.go`: lower-case ASCII letters, U+017F and U+212A go to the upper-case
ASCII letter of their fold orbit. -/
def foldName (s : String) : List Char :=
  s.toList.map (fun c =>
    if 'a'.toNat ≤ c.toNat ∧ c.toNat ≤ 'z'.toNat then Char.ofNat (c.toNat - 32)
    else if c = '\u017f' then 'S'
    else if c = '\u212a' then 'K'
    else c)

/-- The JSON names of the fields of `BasicInfoResponse`, in declaration
order. -/
def basicInfoFields : List String :=
  ["gpNummer", "titelVorgestellt", "titelNachgestellt", "anrede", "vorname", "nachname",
   "registerDate", "von"]

/-- The field a key selects: the field of that exact name, else the first
field whose name equals the key under case folding. -/
def findField (fields : List String) (key : String) : Option String :=
  match fields.find? (fun f => f == key) with
  | some f => some f
  | none => fields.find? (fun f => foldName f == foldName key)

/-- Decoding one member into a `BasicInfoResponse`: `.error` when the
`UnmarshalJSON` of `registerDate` fails (decoding stops there), else the
updated struct and the type error to save. -/
def storeBasicInfoField (field : String) (v : JValue) (b : BasicInfoResponse) :
    Except String (BasicInfoResponse × Option String) :=
  if field = "gpNummer" then
    .ok ({ b with GpNumber := (storeString v b.GpNumber).1 }, (storeString v b.GpNumber).2)
  else if field = "titelVorgestellt" then
    .ok ({ b with TitlePre := (storeString v b.TitlePre).1 }, (storeString v b.TitlePre).2)
  else if field = "titelNachgestellt" then
    .ok ({ b with TitlePost := (storeString v b.TitlePost).1 }, (storeString v b.TitlePost).2)
  else if field = "anrede" then
    .ok ({ b with FormOfAddress := (storeString v b.FormOfAddress).1 },
      (storeString v b.FormOfAddress).2)
  else if field = "vorname" then
    .ok ({ b with Name := (storeString v b.Name).1 }, (storeString v b.Name).2)
  else if field = "nachname" then
    .ok ({ b with Surname := (storeString v b.Surname).1 }, (storeString v b.Surname).2)
  else if field = "registerDate" then
    match LasmRegisterDate.UnmarshalJSON v.raw with
    | some t => .ok ({ b with RegisterDate := t }, none)
    | none => .error "parsing time: cannot parse"
  else if field = "von" then
    .ok ({ b with From := (storeString v b.From).1 }, (storeString v b.From).2)
  else .ok (b, none)

/-- Go `d.object` into a `BasicInfoResponse`: the members in the order of
the text; a key without a field is skipped, the first type error is saved
and decoding goes on, an error of `UnmarshalJSON` ends it. -/
def decodeBasicInfoMembers : List (String × JValue) → BasicInfoResponse → Option String →
    BasicInfoResponse × Option String
  | [], b, saved => (b, saved)
  | (key, v) :: rest, b, saved =>
    match findField basicInfoFields key with
    | none => decodeBasicInfoMembers rest b saved
    | some field =>
      match storeBasicInfoField field v b with
      | .error err => (b, some err)
      | .ok (b1, err) =>
        decodeBasicInfoMembers rest b1 (if saved.isSome then saved else err)

/-- A response body as `json.Unmarshal` sees it: text the scanner rejects,
an object with its members, or another value. -/
inductive JsonDoc
  | syntaxError (err : String)
  | object (members : List (String × JValue))
  | value (v : JValue)
deriving DecidableEq, Repr

/-- Go `json.Unmarshal(payload, &basicInfo)`. -/
def unmarshalBasicInfo : Unmarshal JsonDoc BasicInfoResponse := fun payload b =>
  match payload with
  | .syntaxError err => (b, some err)
  | .object members => decodeBasicInfoMembers members b none
  | .value .null => (b, none)
  | .value _ => (b, some "json: cannot unmarshal value into Go value of type lasm.BasicInfoResponse")

/-- A body with well-formed names and a `registerDate` whose month is 13. -/
def sampleBadBody : JsonDoc :=
  .object [("vorname", .string "Max".toList), ("nachname", .string "Muster".toList),
    ("registerDate", .string "2021-13-01T10:00:00".toList), ("von", .string "x".toList)]

/-- Go `literalStore` into a destination of kind `bool`. -/
def storeBool (v : JValue) (dst : Bool) : Bool × Option String :=
  match v with
  | .null => (dst, none)
  | .bool b => (b, none)
  | .string _ => (dst, some "json: cannot unmarshal string into Go value of type bool")
  | .number _ => (dst, some "json: cannot unmarshal number into Go value of type bool")
  | .composite _ => (dst, some "json: cannot unmarshal array or object into Go value of type bool")

/-- Decoding one member into a `MeterInfoResponse`, by the JSON name of its
field: `.error` when the `UnmarshalJSON` of `validFrom` fails, else the
updated struct and the type error to save. -/
def storeMeterInfoField (field : String) (v : JValue) (m : MeterInfoResponse) :
    Except String (MeterInfoResponse × Option String) :=
  if field = "meteringPointId" then
    .ok ({ m with Id := (storeString v m.Id).1 }, (storeString v m.Id).2)
  else if field = "typeOfRelation" then
    .ok ({ m with TypeOfRelation := (storeString v m.TypeOfRelation).1 },
      (storeString v m.TypeOfRelation).2)
  else if field = "ftmReadOut" then
    .ok ({ m with FtmReadOut := (storeBool v m.FtmReadOut).1 }, (storeBool v m.FtmReadOut).2)
  else if field = "ftmReadOutProvider" then
    .ok ({ m with FtmReadOutProvider := (storeBool v m.FtmReadOutProvider).1 },
      (storeBool v m.FtmReadOutProvider).2)
  else if field = "communityProductionFacility" then
    .ok ({ m with CommunityProductionFacility := (storeBool v m.CommunityProductionFacility).1 },
      (storeBool v m.CommunityProductionFacility).2)
  else if field = "hasFtmMeterData" then
    .ok ({ m with HasFtmMeterData := (storeBool v m.HasFtmMeterData).1 },
      (storeBool v m.HasFtmMeterData).2)
  else if field = "validFrom" then
    match ValidFromDate.UnmarshalJSON v.raw with
    | some t => .ok ({ m with ValidFrom := t }, none)
    | none => .error "parsing time: cannot parse"
  else if field = "smartMeterType" then
    .ok ({ m with SmartMeterType := (storeString v m.SmartMeterType).1 },
      (storeString v m.SmartMeterType).2)
  else if field = "locked" then
    .ok ({ m with Locked := (storeBool v m.Locked).1 }, (storeBool v m.Locked).2)
  else if field = "pointOfConsumption" then
    .ok ({ m with PointOfConsumption := (storeString v m.PointOfConsumption).1 },
      (storeString v m.PointOfConsumption).2)
  else if field = "category" then
    .ok ({ m with Category := (storeString v m.Category).1 }, (storeString v m.Category).2)
  else .ok (m, none)

/-- A metering point before decoding. -/
def sampleMeterInfo : MeterInfoResponse :=
  ⟨"", "", false, false, false, false, Time.zero, "", false, "", ""⟩

/-! ## Properties -/

/-! ### The derived day series -/

theorem norm_of_range (hi lo base : Int) (h0 : 0 ≤ lo) (h1 : lo < base) :
    norm hi lo base = (hi, lo) := by
  unfold norm
  have h2 : ¬ lo < 0 := by omega
  have h3 : ¬ lo ≥ base := by omega
  simp [h2, h3]

/-- `time.Date` at 00:15 is a quarter of an hour after `time.Date` at 00:00
of the same day, whatever the year, month and day handed in. -/
theorem Date_quarter_past (y m d : Int) :
    Date y m d 0 15 0 0 = ⟨(Date y m d 0 0 0 0).sec + 900, 0⟩ := by
  have e1 : norm 0 0 1000000000 = (0, 0) := norm_of_range _ _ _ (by omega) (by omega)
  have e2 : norm 15 0 60 = (15, 0) := norm_of_range _ _ _ (by omega) (by omega)
  have e3 : norm 0 15 60 = (0, 15) := norm_of_range _ _ _ (by omega) (by omega)
  have e4 : norm 0 0 60 = (0, 0) := norm_of_range _ _ _ (by omega) (by omega)
  have e5 : norm d 0 24 = (d, 0) := norm_of_range _ _ _ (by omega) (by omega)
  simp only [Date, e1, e2, e3, e4, e5]
  simp only [Time.mk.injEq, and_true]
  omega

theorem wrapInt64_of_range (x : Int) (hlo : minInt64 ≤ x) (hhi : x ≤ maxInt64) :
    wrapInt64 x = x := by
  unfold wrapInt64
  unfold minInt64 maxInt64 at *
  omega

/-- Adding seconds that keep `ext` inside the `int64` range is exact. -/
theorem addSec_of_range (t : Time) (d : Int) (hlo : minInt64 ≤ t.sec + unixToInternal + d)
    (hhi : t.sec + unixToInternal + d ≤ maxInt64) : t.addSec d = ⟨t.sec + d, t.nsec⟩ := by
  unfold Time.addSec
  simp only [wrapInt64_of_range _ hlo hhi]
  have hc : decide (t.sec + unixToInternal + d > t.sec + unixToInternal) = decide (d > 0) := by
    by_cases h : d > 0
    · have h2 : t.sec + unixToInternal + d > t.sec + unixToInternal := by omega
      simp [h, h2]
    · have h2 : ¬ t.sec + unixToInternal + d > t.sec + unixToInternal := by omega
      simp [h, h2]
  simp only [hc, if_true, Time.mk.injEq, and_true]
  omega

/-- One step of the loop: a quarter of an hour later, as long as the result
is an instant a `time.Time` can hold. -/
theorem Add_interval (t : Time) (h : t.nsec = 0) (hlo : minInt64 ≤ t.sec + unixToInternal)
    (hhi : t.sec + unixToInternal + 900 ≤ maxInt64) :
    t.Add (Minute * 15) = ⟨t.sec + 900, 0⟩ := by
  have hd : Minute * 15 = 900 * 1000000000 := by
    simp only [Minute, Second, Nanosecond]; norm_num
  have hq : ((900 : Int) * 1000000000).tdiv 1000000000 = 900 := by decide
  have hr : ((900 : Int) * 1000000000).tmod 1000000000 = 0 := by decide
  unfold Time.Add
  rw [hd]
  simp only [hq, hr, h, add_zero]
  have h1 : ¬ ((0 : Int) ≥ 1000000000) := by omega
  have h2 : ¬ ((0 : Int) < 0) := by omega
  simp only [h1, h2, if_false]
  exact addSec_of_range ⟨t.sec, 0⟩ 900 (by simp only; omega) (by simp only; omega)

theorem fillValues_length {F : Type} (interval : Int) (ts : Time) (l : List F) :
    (fillValues interval ts l).length = l.length := by
  induction l generalizing ts with
  | nil => rfl
  | cons v rest ih => simp [fillValues, ih]

/-- Element `i` of the loop's result: the `i`-th value, stamped with the
start time advanced by `i` quarters of an hour, when that instant is one a
`time.Time` can hold. -/
theorem fillValues_get {F : Type} (ts : Time) (h : ts.nsec = 0)
    (hlo : minInt64 ≤ ts.sec + unixToInternal) (l : List F) (i : Nat) (v : F)
    (hv : l[i]? = some v) (hhi : ts.sec + unixToInternal + 900 * (i : Int) ≤ maxInt64) :
    (fillValues (Minute * 15) ts l)[i]? = some ⟨⟨ts.sec + 900 * i, 0⟩, v⟩ := by
  induction l generalizing ts i with
  | nil => simp at hv
  | cons w rest ih =>
    cases i with
    | zero =>
      cases ts with
      | mk s n =>
        simp only at h
        simp only [List.getElem?_cons_zero, Option.some.injEq] at hv
        simp [fillValues, h, hv]
    | succ j =>
      simp only [List.getElem?_cons_succ] at hv
      push_cast at hhi
      have hadd : ts.Add (Minute * 15) = ⟨ts.sec + 900, 0⟩ :=
        Add_interval ts h hlo (by omega)
      simp only [fillValues, List.getElem?_cons_succ, hadd]
      rw [ih ⟨ts.sec + 900, 0⟩ rfl (by simp only; omega) j hv (by simp only; omega)]
      simp only [Option.some.injEq, MeterValue.mk.injEq, Time.mk.injEq, and_true]
      push_cast
      ring

theorem GetConsumptionByMeterAndDate_ok {P F : Type} (c : LasmClient P)
    (unmarshal : Unmarshal P (MeterValuesResponseDayMonth F)) (meterId : String)
    (date : CivilTime) (resp : Response P) (payload : P) (raw : MeterValuesResponseDayMonth F)
    (hget : c.Get (dayRequestUrl meterId date) = .ok resp)
    (hstatus : resp.StatusCode = 200)
    (hbody : resp.Body = .ok payload)
    (hdecode : unmarshal payload MeterValuesResponseDayMonth.zero = (raw, none)) :
    GetConsumptionByMeterAndDate c unmarshal meterId date =
      (raw, some (fillValues (Minute * 15) (Date date.Year date.Month date.Day 0 15 0 0)
        (raw.MeteredValues.getD [])), none) := by
  simp [GetConsumptionByMeterAndDate, hget, hstatus, hbody, hdecode, StatusOK]

/-- Record `i` of the loop started at 00:15 of the date: the `i`-th value with
the timestamp midnight + 15 min + `i` × 15 min, when that instant is one a
`time.Time` can hold. -/
theorem fillValues_from_midnight {F : Type} (date : CivilTime) (l : List F) (i : Nat) (v : F)
    (hlo : minInt64 ≤ (Date date.Year date.Month date.Day 0 0 0 0).sec + unixToInternal)
    (hv : l[i]? = some v)
    (hhi : (Date date.Year date.Month date.Day 0 0 0 0).sec + unixToInternal
      + 15 * 60 + i * (15 * 60) ≤ maxInt64) :
    (fillValues (Minute * 15) (Date date.Year date.Month date.Day 0 15 0 0) l)[i]? =
      some ⟨⟨(Date date.Year date.Month date.Day 0 0 0 0).sec + 15 * 60 + i * (15 * 60), 0⟩, v⟩ := by
  have hq := Date_quarter_past date.Year date.Month date.Day
  rw [hq, fillValues_get _ rfl (by simp only; omega) l i v hv (by simp only; omega)]
  simp only [Option.some.injEq, MeterValue.mk.injEq, Time.mk.injEq, and_true]
  ring

/-- C1 (as amended): for every meter id, date and HTTP-200 day response that
decodes to `raw` with `N` metered values (any `N`), `GetConsumptionByMeterAndDate`
returns `raw` unchanged, no error, and a derived sequence of exactly `N`
records; record `i` carries `meteredValues[i]`, and its timestamp is 00:00 UTC
of the date's own year, month and day plus 15 minutes plus `i` times 15
minutes whenever that instant is one a `time.Time` can hold (its seconds
since year 1 fit an `int64`). -/
theorem GetConsumptionByMeterAndDate_values {P F : Type} (c : LasmClient P)
    (unmarshal : Unmarshal P (MeterValuesResponseDayMonth F)) (meterId : String)
    (date : CivilTime) (resp : Response P) (payload : P) (raw : MeterValuesResponseDayMonth F)
    (hget : c.Get (dayRequestUrl meterId date) = .ok resp)
    (hstatus : resp.StatusCode = 200)
    (hbody : resp.Body = .ok payload)
    (hdecode : unmarshal payload MeterValuesResponseDayMonth.zero = (raw, none))
    (hlo : minInt64 ≤ (Date date.Year date.Month date.Day 0 0 0 0).sec + unixToInternal) :
    ∃ values : List (MeterValue F),
      GetConsumptionByMeterAndDate c unmarshal meterId date = (raw, some values, none) ∧
      values.length = raw.MeteredValues.len ∧
      ∀ (i : Nat) (v : F), (raw.MeteredValues.getD [])[i]? = some v →
        (Date date.Year date.Month date.Day 0 0 0 0).sec + unixToInternal
          + 15 * 60 + i * (15 * 60) ≤ maxInt64 →
        values[i]? = some
          ⟨⟨(Date date.Year date.Month date.Day 0 0 0 0).sec + 15 * 60 + i * (15 * 60), 0⟩, v⟩ := by
  refine ⟨_, GetConsumptionByMeterAndDate_ok c unmarshal meterId date resp payload raw
    hget hstatus hbody hdecode, ?_, ?_⟩
  · simp [fillValues_length, Slice.len]
  · intro i v hv hhi
    exact fillValues_from_midnight date _ i v hlo hv hhi

theorem GetConsumptionByMeterAndDate_values_witness :
    ∃ values : List (MeterValue Nat),
      GetConsumptionByMeterAndDate (constantClient 200 (.ok ())) (decodeTo sampleDay) "AT001"
        sampleDate = (sampleDay, some values, none) ∧
      values.length = sampleDay.MeteredValues.len ∧
      ∀ (i : Nat) (v : Nat), (sampleDay.MeteredValues.getD [])[i]? = some v →
        (Date sampleDate.Year sampleDate.Month sampleDate.Day 0 0 0 0).sec + unixToInternal
          + 15 * 60 + i * (15 * 60) ≤ maxInt64 →
        values[i]? = some
          ⟨⟨(Date sampleDate.Year sampleDate.Month sampleDate.Day 0 0 0 0).sec
            + 15 * 60 + i * (15 * 60), 0⟩, v⟩ :=
  GetConsumptionByMeterAndDate_values (constantClient 200 (.ok ())) (decodeTo sampleDay) "AT001"
    sampleDate ⟨200, .ok ()⟩ () sampleDay rfl rfl rfl rfl (by decide)

set_option maxRecDepth 100000 in
/-- C1 as stated fails: on December 6th of the year 292277024627 with 64
metered values, record 62 does not carry midnight + 15 min + 62 × 15 min
(15:45:00) but the largest instant of a `time.Time` (15:30:07), at which
`Time.Add` stops. -/
theorem GetConsumptionByMeterAndDate_late_date :
    ((GetConsumptionByMeterAndDate (constantClient 200 (.ok ())) (decodeTo lateDay) "AT001"
        lateDate).2.1.getD [])[62]? =
      some ⟨⟨(Date 292277024627 12 6 0 0 0 0).sec + 15 * 60 + 61 * (15 * 60) + 7, 0⟩, 0⟩ ∧
    (⟨⟨(Date 292277024627 12 6 0 0 0 0).sec + 15 * 60 + 61 * (15 * 60) + 7, 0⟩, 0⟩ :
        MeterValue Nat) ≠
      ⟨⟨(Date 292277024627 12 6 0 0 0 0).sec + 15 * 60 + 62 * (15 * 60), 0⟩, 0⟩ := by
  decide

/-- C2 (as amended): for every valid day response with `N` metered values the
derived sequence has `N` records and, as far as the instants midnight +
15 min + `i` × 15 min are ones a `time.Time` can hold, it is strictly
ascending by timestamp, consecutive timestamps are exactly 15 minutes apart,
and the first timestamp is UTC midnight of the date plus 15 minutes. -/
theorem GetConsumptionByMeterAndDate_ascending {P F : Type} (c : LasmClient P)
    (unmarshal : Unmarshal P (MeterValuesResponseDayMonth F)) (meterId : String)
    (date : CivilTime) (resp : Response P) (payload : P) (raw : MeterValuesResponseDayMonth F)
    (hget : c.Get (dayRequestUrl meterId date) = .ok resp)
    (hstatus : resp.StatusCode = 200)
    (hbody : resp.Body = .ok payload)
    (hdecode : unmarshal payload MeterValuesResponseDayMonth.zero = (raw, none))
    (hlo : minInt64 ≤ (Date date.Year date.Month date.Day 0 0 0 0).sec + unixToInternal) :
    ∃ values : List (MeterValue F),
      GetConsumptionByMeterAndDate c unmarshal meterId date = (raw, some values, none) ∧
      values.length = raw.MeteredValues.len ∧
      (∀ (i j : Nat) (a b : MeterValue F), i < j → values[i]? = some a → values[j]? = some b →
        (Date date.Year date.Month date.Day 0 0 0 0).sec + unixToInternal
          + 15 * 60 + j * (15 * 60) ≤ maxInt64 →
        a.Timestamp.Before b.Timestamp) ∧
      (∀ (i : Nat) (a b : MeterValue F), values[i]? = some a → values[i + 1]? = some b →
        (Date date.Year date.Month date.Day 0 0 0 0).sec + unixToInternal
          + 15 * 60 + (i + 1 : Nat) * (15 * 60) ≤ maxInt64 →
        b.Timestamp.unixNano - a.Timestamp.unixNano = 15 * Minute) ∧
      (1 ≤ raw.MeteredValues.len →
        (Date date.Year date.Month date.Day 0 0 0 0).sec + unixToInternal + 15 * 60 ≤ maxInt64 →
        ∃ a : MeterValue F, values[0]? = some a ∧
          a.Timestamp = ⟨(Date date.Year date.Month date.Day 0 0 0 0).sec + 15 * 60, 0⟩) := by
  have key : ∀ (i : Nat) (a : MeterValue F),
      (fillValues (Minute * 15) (Date date.Year date.Month date.Day 0 15 0 0)
        (raw.MeteredValues.getD []))[i]? = some a →
      (Date date.Year date.Month date.Day 0 0 0 0).sec + unixToInternal
        + 15 * 60 + i * (15 * 60) ≤ maxInt64 →
      a.Timestamp =
        ⟨(Date date.Year date.Month date.Day 0 0 0 0).sec + 15 * 60 + i * (15 * 60), 0⟩ := by
    intro i a ha hhi
    have hlen : i < (raw.MeteredValues.getD []).length := by
      have := List.getElem?_eq_some_iff.mp ha
      obtain ⟨hi, _⟩ := this
      simpa [fillValues_length] using hi
    have hv : (raw.MeteredValues.getD [])[i]? = some ((raw.MeteredValues.getD [])[i]) :=
      List.getElem?_eq_getElem hlen
    rw [fillValues_from_midnight date _ i _ hlo hv hhi] at ha
    simp only [Option.some.injEq] at ha
    rw [← ha]
  refine ⟨_, GetConsumptionByMeterAndDate_ok c unmarshal meterId date resp payload raw
    hget hstatus hbody hdecode, ?_, ?_, ?_, ?_⟩
  · simp [fillValues_length, Slice.len]
  · intro i j a b hij ha hb hhi
    have hij2 : (i : Int) < j := by exact_mod_cast hij
    rw [key i a ha (by omega), key j b hb hhi]
    left
    show _ + 15 * 60 + (i : Int) * (15 * 60) < _ + 15 * 60 + (j : Int) * (15 * 60)
    omega
  · intro i a b ha hb hhi
    push_cast at hhi
    rw [key i a ha (by omega), key (i + 1) b hb (by push_cast; omega)]
    simp only [Time.unixNano, Minute, Second, Nanosecond]
    push_cast
    ring
  · intro hlen _
    cases hl : raw.MeteredValues.getD [] with
    | nil => simp [Slice.len, hl] at hlen
    | cons v rest =>
      refine ⟨⟨Date date.Year date.Month date.Day 0 15 0 0, v⟩, by simp [fillValues], ?_⟩
      rw [Date_quarter_past]
      rfl

theorem GetConsumptionByMeterAndDate_ascending_witness :
    ∃ values : List (MeterValue Nat),
      GetConsumptionByMeterAndDate (constantClient 200 (.ok ())) (decodeTo sampleDay) "AT001"
        sampleDate = (sampleDay, some values, none) ∧
      values.length = sampleDay.MeteredValues.len ∧
      (∀ (i j : Nat) (a b : MeterValue Nat), i < j → values[i]? = some a → values[j]? = some b →
        (Date sampleDate.Year sampleDate.Month sampleDate.Day 0 0 0 0).sec + unixToInternal
          + 15 * 60 + j * (15 * 60) ≤ maxInt64 →
        a.Timestamp.Before b.Timestamp) ∧
      (∀ (i : Nat) (a b : MeterValue Nat), values[i]? = some a → values[i + 1]? = some b →
        (Date sampleDate.Year sampleDate.Month sampleDate.Day 0 0 0 0).sec + unixToInternal
          + 15 * 60 + (i + 1 : Nat) * (15 * 60) ≤ maxInt64 →
        b.Timestamp.unixNano - a.Timestamp.unixNano = 15 * Minute) ∧
      (1 ≤ sampleDay.MeteredValues.len →
        (Date sampleDate.Year sampleDate.Month sampleDate.Day 0 0 0 0).sec + unixToInternal
          + 15 * 60 ≤ maxInt64 →
        ∃ a : MeterValue Nat, values[0]? = some a ∧
          a.Timestamp = ⟨(Date sampleDate.Year sampleDate.Month sampleDate.Day 0 0 0 0).sec
            + 15 * 60, 0⟩) :=
  GetConsumptionByMeterAndDate_ascending (constantClient 200 (.ok ())) (decodeTo sampleDay)
    "AT001" sampleDate ⟨200, .ok ()⟩ () sampleDay rfl rfl rfl rfl (by decide)

set_option maxRecDepth 100000 in
/-- C2 as stated fails: on December 6th of the year 292277024627 with 64
metered values, records 62 and 63 carry the same timestamp (not strictly
ascending, not 15 minutes apart), and records 61 and 62 are 7 seconds
apart. -/
theorem GetConsumptionByMeterAndDate_late_date_not_ascending :
    (((GetConsumptionByMeterAndDate (constantClient 200 (.ok ())) (decodeTo lateDay) "AT001"
        lateDate).2.1.getD []).map (fun r => r.Timestamp))[62]? =
      (((GetConsumptionByMeterAndDate (constantClient 200 (.ok ())) (decodeTo lateDay) "AT001"
        lateDate).2.1.getD []).map (fun r => r.Timestamp))[63]? ∧
    (((GetConsumptionByMeterAndDate (constantClient 200 (.ok ())) (decodeTo lateDay) "AT001"
        lateDate).2.1.getD []).map (fun r => r.Timestamp.unixNano))[62]? =
      (((GetConsumptionByMeterAndDate (constantClient 200 (.ok ())) (decodeTo lateDay) "AT001"
        lateDate).2.1.getD []).map (fun r => r.Timestamp.unixNano + 7 * Second))[61]? ∧
    (((GetConsumptionByMeterAndDate (constantClient 200 (.ok ())) (decodeTo lateDay) "AT001"
        lateDate).2.1.getD []).map (fun r => r.Timestamp))[63]? =
      some ⟨maxInt64 - unixToInternal, 0⟩ := by
  decide

/-! ### Status codes -/

theorem Errorf_basic_status (n : Int) :
    Errorf "could not retrieve basic info, status code: %d" [.int n] =
      "could not retrieve basic info, status code: " ++ formatInt n := by
  apply String.ext; simp [Errorf, Sprintf, doPrintf, formatVerb, extraArgs]

theorem Errorf_account_status (n : Int) :
    Errorf "could not retrieve account info, status code: %d" [.int n] =
      "could not retrieve account info, status code: " ++ formatInt n := by
  apply String.ext; simp [Errorf, Sprintf, doPrintf, formatVerb, extraArgs]

theorem Errorf_meter_status (n : Int) :
    Errorf "could not retrieve meter info, status code: %d" [.int n] =
      "could not retrieve meter info, status code: " ++ formatInt n := by
  apply String.ext; simp [Errorf, Sprintf, doPrintf, formatVerb, extraArgs]

theorem Errorf_login_status (n : Int) :
    Errorf "login failed, status code: %d" [.int n] =
      "login failed, status code: " ++ formatInt n := by
  apply String.ext; simp [Errorf, Sprintf, doPrintf, formatVerb, extraArgs]

theorem Errorf_login_transport (e : String) :
    Errorf "could not login: %s" [.str e] = "could not login: " ++ e := by
  apply String.ext; simp [Errorf, Sprintf, doPrintf, formatVerb, extraArgs]

theorem Errorf_basic_unmarshal (e : String) :
    Errorf "could not unmarshal basic info payload: %s" [.str e] =
      "could not unmarshal basic info payload: " ++ e := by
  apply String.ext; simp [Errorf, Sprintf, doPrintf, formatVerb, extraArgs]

theorem Errorf_account_unmarshal (e : String) :
    Errorf "could not unmarshal account info payload: %s" [.str e] =
      "could not unmarshal account info payload: " ++ e := by
  apply String.ext; simp [Errorf, Sprintf, doPrintf, formatVerb, extraArgs]

theorem Errorf_meter_unmarshal (e : String) :
    Errorf "could not unmarshal meter info payload: %s" [.str e] =
      "could not unmarshal meter info payload: " ++ e := by
  apply String.ext; simp [Errorf, Sprintf, doPrintf, formatVerb, extraArgs]

/-- C3: each of the six retrieval operations, on a response whose status
code `s` is not 200, returns the zero value (and, for the daily call, a nil
derived sequence) together with an error whose message ends in the decimal
status code `s`; the body and the decoder play no part. -/
theorem retrieval_status_error {P F : Type} (s : Int) (hs : s ≠ 200) :
    (∀ (c : LasmClient P) (u : Unmarshal P BasicInfoResponse) (resp : Response P),
      c.Get BASIC_INFO_URL = .ok resp → resp.StatusCode = s →
      GetBasicInfo c u = (BasicInfoResponse.zero,
        some ("could not retrieve basic info, status code: " ++ formatInt s))) ∧
    (∀ (c : LasmClient P) (u : Unmarshal P (Slice AccountInfoResponse)) (resp : Response P),
      c.Get ACCOUNT_INFO_URL = .ok resp → resp.StatusCode = s →
      GetAccountInfos c u = (none,
        some ("could not retrieve account info, status code: " ++ formatInt s))) ∧
    (∀ (c : LasmClient P) (u : Unmarshal P (Slice MeterInfoResponse)) (accountId : String)
      (resp : Response P),
      c.Get (Sprintf METERING_POINT_INFO_URL [.str accountId]) = .ok resp →
      resp.StatusCode = s →
      GetMeterInfos c u accountId = (none,
        some ("could not retrieve meter info, status code: " ++ formatInt s))) ∧
    (∀ (c : LasmClient P) (u : Unmarshal P (MeterValuesResponseDayMonth F)) (meterId : String)
      (date : CivilTime) (resp : Response P),
      c.Get (dayRequestUrl meterId date) = .ok resp → resp.StatusCode = s →
      GetConsumptionByMeterAndDate c u meterId date = (MeterValuesResponseDayMonth.zero, none,
        some ("could not retrieve meter info, status code: " ++ formatInt s))) ∧
    (∀ (c : LasmClient P) (u : Unmarshal P (MeterValuesResponseDayMonth F)) (meterId : String)
      (date : CivilTime) (resp : Response P),
      c.Get (monthRequestUrl meterId date) = .ok resp → resp.StatusCode = s →
      GetConsumptionByMeterAndYearAndMonth c u meterId date = (MeterValuesResponseDayMonth.zero,
        some ("could not retrieve meter info, status code: " ++ formatInt s))) ∧
    (∀ (c : LasmClient P) (u : Unmarshal P (MeterValuesResponseYear F)) (meterId : String)
      (date : CivilTime) (resp : Response P),
      c.Get (yearRequestUrl meterId date) = .ok resp → resp.StatusCode = s →
      GetConsumptionByMeterAndYear c u meterId date = (MeterValuesResponseYear.zero,
        some ("could not retrieve meter info, status code: " ++ formatInt s))) := by
  have hs1 : s ≠ StatusOK := hs
  refine ⟨?_, ?_, ?_, ?_, ?_, ?_⟩
  · intro c u resp hget hst
    subst hst
    simp [GetBasicInfo, hget, hs1, Errorf_basic_status]
  · intro c u resp hget hst
    subst hst
    simp [GetAccountInfos, hget, hs1, Errorf_account_status]
  · intro c u accountId resp hget hst
    subst hst
    simp [GetMeterInfos, hget, hs1, Errorf_meter_status]
  · intro c u meterId date resp hget hst
    subst hst
    simp [GetConsumptionByMeterAndDate, hget, hs1, Errorf_meter_status]
  · intro c u meterId date resp hget hst
    subst hst
    simp [GetConsumptionByMeterAndYearAndMonth, hget, hs1, Errorf_meter_status]
  · intro c u meterId date resp hget hst
    subst hst
    simp [GetConsumptionByMeterAndYear, hget, hs1, Errorf_meter_status]

theorem retrieval_status_error_witness :
    GetBasicInfo (constantClient 404 (.ok ())) (decodeTo sampleBasicInfo) =
      (BasicInfoResponse.zero,
        some ("could not retrieve basic info, status code: " ++ formatInt 404)) ∧
    GetConsumptionByMeterAndDate (constantClient 404 (.ok ())) (decodeTo sampleDay) "AT001"
      sampleDate = (MeterValuesResponseDayMonth.zero, none,
        some ("could not retrieve meter info, status code: " ++ formatInt 404)) ∧
    GetConsumptionByMeterAndYear (constantClient 404 (.ok ())) (decodeTo sampleYear) "AT001"
      sampleDate = (MeterValuesResponseYear.zero,
        some ("could not retrieve meter info, status code: " ++ formatInt 404)) :=
  ⟨(retrieval_status_error (P := Unit) (F := Nat) 404 (by decide)).1 _ _ ⟨404, .ok ()⟩ rfl rfl,
   (retrieval_status_error (P := Unit) (F := Nat) 404 (by decide)).2.2.2.1 _ _ _ _ ⟨404, .ok ()⟩
     rfl rfl,
   (retrieval_status_error (P := Unit) (F := Nat) 404 (by decide)).2.2.2.2.2 _ _ _ _
     ⟨404, .ok ()⟩ rfl rfl⟩

/-- C4: `Login` returns nil exactly when the POST obtained a response with
status code 200; for any other status code the error message is
`login failed, status code: ` followed by that code, and a transport
failure gives an error as well. -/
theorem Login_result {P : Type} (c : LasmClient P) (username password : GoString) :
    (Login c username password = none ↔
      ∃ resp, c.Post AUTH_URL "application/json"
        (Marshal [("user", username), ("pwd", password)]) = .ok resp ∧ resp.StatusCode = 200) ∧
    (∀ resp, c.Post AUTH_URL "application/json"
        (Marshal [("user", username), ("pwd", password)]) = .ok resp → resp.StatusCode ≠ 200 →
      Login c username password =
        some ("login failed, status code: " ++ formatInt resp.StatusCode)) ∧
    (∀ err, c.Post AUTH_URL "application/json"
        (Marshal [("user", username), ("pwd", password)]) = .error err →
      Login c username password = some ("could not login: " ++ err)) := by
  unfold Login
  cases hpost : c.Post AUTH_URL "application/json"
      (Marshal [("user", username), ("pwd", password)]) with
  | error err => simp [hpost, Errorf_login_transport]
  | ok resp =>
    by_cases hst : resp.StatusCode = 200
    · simp [hpost, hst, StatusOK]
    · simp [hpost, hst, StatusOK, Errorf_login_status]

/-! ### Request URLs -/

theorem toDigitsCore_step (f n : Nat) (ds : List Char) (hf : 0 < f) :
    Nat.toDigitsCore 10 f n ds =
      if n < 10 then Nat.digitChar n :: ds
      else Nat.toDigitsCore 10 (f - 1) (n / 10) (Nat.digitChar (n % 10) :: ds) := by
  obtain ⟨g, rfl⟩ : ∃ g, f = g + 1 := ⟨f - 1, by omega⟩
  simp only [Nat.toDigitsCore, Nat.add_sub_cancel]
  by_cases h : n < 10
  · have h1 : n / 10 = 0 := by omega
    have h2 : n % 10 = n := by omega
    simp [h, h1, h2]
  · have h1 : n / 10 ≠ 0 := by omega
    simp [h, h1]

/-- Go `appendInt(b, x, 4)` for `0 ≤ x ≤ 9999`: four digits. -/
theorem appendInt_four (x : Int) (h0 : 0 ≤ x) (h1 : x ≤ 9999) :
    appendInt x 4 = [Nat.digitChar (x.toNat / 1000), Nat.digitChar (x.toNat / 100 % 10),
      Nat.digitChar (x.toNat / 10 % 10), Nat.digitChar (x.toNat % 10)] := by
  obtain ⟨n, rfl⟩ : ∃ n : Nat, x = n := ⟨x.toNat, by omega⟩
  have hn : n < 10000 := by omega
  have hneg : ¬ ((n : Int) < 0) := by omega
  have hz : '0' = Nat.digitChar 0 := rfl
  simp only [appendInt, hneg, if_false, Int.natAbs_ofNat, Int.toNat_ofNat, List.nil_append,
    Nat.toDigits]
  rw [toDigitsCore_step _ _ _ (by omega)]
  by_cases c1 : n < 10
  · have e1 : n / 1000 = 0 := by omega
    have e2 : n / 100 % 10 = 0 := by omega
    have e3 : n / 10 % 10 = 0 := by omega
    have e4 : n % 10 = n := by omega
    simp [c1, e1, e2, e3, e4, List.replicate, ← hz]
  · rw [if_neg c1, toDigitsCore_step _ _ _ (by omega)]
    by_cases c2 : n / 10 < 10
    · have e1 : n / 1000 = 0 := by omega
      have e2 : n / 100 % 10 = 0 := by omega
      have e3 : n / 10 % 10 = n / 10 := by omega
      simp [c2, e1, e2, e3, List.replicate, ← hz]
    · rw [if_neg c2, toDigitsCore_step _ _ _ (by omega)]
      have e5 : n / 10 / 10 = n / 100 := by omega
      by_cases c3 : n / 10 / 10 < 10
      · have e1 : n / 1000 = 0 := by omega
        have e2 : n / 100 % 10 = n / 100 := by omega
        have c3a : n / 100 < 10 := by omega
        simp [c3a, e1, e2, e5, List.replicate, ← hz]
      · rw [if_neg c3, toDigitsCore_step _ _ _ (by omega)]
        have c4a : n / 1000 < 10 := by omega
        have e8 : n / 100 / 10 = n / 1000 := by omega
        simp [c4a, e5, e8, List.replicate]

/-- Go `appendInt(b, x, 2)` for `0 ≤ x ≤ 99`: two digits. -/
theorem appendInt_two (x : Int) (h0 : 0 ≤ x) (h1 : x ≤ 99) :
    appendInt x 2 = [Nat.digitChar (x.toNat / 10), Nat.digitChar (x.toNat % 10)] := by
  obtain ⟨n, rfl⟩ : ∃ n : Nat, x = n := ⟨x.toNat, by omega⟩
  have hn : n < 100 := by omega
  have hneg : ¬ ((n : Int) < 0) := by omega
  have hz : '0' = Nat.digitChar 0 := rfl
  simp only [appendInt, hneg, if_false, Int.natAbs_ofNat, Int.toNat_ofNat, List.nil_append,
    Nat.toDigits]
  rw [toDigitsCore_step _ _ _ (by omega)]
  by_cases c1 : n < 10
  · have e1 : n / 10 = 0 := by omega
    have e4 : n % 10 = n := by omega
    simp [c1, e1, e4, List.replicate, ← hz]
  · rw [if_neg c1, toDigitsCore_step _ _ _ (by omega)]
    have c2 : n / 10 < 10 := by omega
    simp [c2, List.replicate]

theorem formatInt_ne_month_name (m : Int) (h1 : 1 ≤ m) (h12 : m ≤ 12) :
    formatInt m ≠ Month.String m := by
  interval_cases m <;> decide

/-- C9: the URL each consumption operation requests is its path template
with the parameters put in as they are: the daily call has `day` = the
date's own year, month and day, zero-padded to `YYYY-MM-DD`; the monthly
call has `year` and `month` as decimal numbers (the month's number, not its
name); the yearly call has the decimal `year`; `meterId` is copied
unchanged.  Each operation's result depends on the portal only through the
answer to that one URL. -/
theorem consumption_request_urls {P F : Type} (meterId : String) (date : CivilTime) :
    (dayRequestUrl meterId date =
      "https://smartmeter.netz-noe.at/orchestration/ConsumptionRecord/Day?meterId=" ++ meterId
        ++ "&day=" ++ String.mk (appendInt date.Year 4 ++ '-' :: appendInt date.Month 2
        ++ '-' :: appendInt date.Day 2)) ∧
    (0 ≤ date.Year → date.Year ≤ 9999 → 1 ≤ date.Month → date.Month ≤ 12 →
      1 ≤ date.Day → date.Day ≤ 31 →
      dayRequestUrl meterId date =
        "https://smartmeter.netz-noe.at/orchestration/ConsumptionRecord/Day?meterId=" ++ meterId
          ++ "&day=" ++ String.mk
          [Nat.digitChar (date.Year.toNat / 1000), Nat.digitChar (date.Year.toNat / 100 % 10),
           Nat.digitChar (date.Year.toNat / 10 % 10), Nat.digitChar (date.Year.toNat % 10), '-',
           Nat.digitChar (date.Month.toNat / 10), Nat.digitChar (date.Month.toNat % 10), '-',
           Nat.digitChar (date.Day.toNat / 10), Nat.digitChar (date.Day.toNat % 10)]) ∧
    (monthRequestUrl meterId date =
      "https://smartmeter.netz-noe.at/orchestration/ConsumptionRecord/Month?meterId=" ++ meterId
        ++ "&year=" ++ formatInt date.Year ++ "&month=" ++ formatInt date.Month) ∧
    (1 ≤ date.Month → date.Month ≤ 12 → formatInt date.Month ≠ Month.String date.Month) ∧
    (yearRequestUrl meterId date =
      "https://smartmeter.netz-noe.at/orchestration/ConsumptionRecord/Year?meterId=" ++ meterId
        ++ "&year=" ++ formatInt date.Year) ∧
    (∀ (c d : LasmClient P) (u : Unmarshal P (MeterValuesResponseDayMonth F)),
      c.Get (dayRequestUrl meterId date) = d.Get (dayRequestUrl meterId date) →
      GetConsumptionByMeterAndDate c u meterId date =
        GetConsumptionByMeterAndDate d u meterId date) ∧
    (∀ (c d : LasmClient P) (u : Unmarshal P (MeterValuesResponseDayMonth F)),
      c.Get (monthRequestUrl meterId date) = d.Get (monthRequestUrl meterId date) →
      GetConsumptionByMeterAndYearAndMonth c u meterId date =
        GetConsumptionByMeterAndYearAndMonth d u meterId date) ∧
    (∀ (c d : LasmClient P) (u : Unmarshal P (MeterValuesResponseYear F)),
      c.Get (yearRequestUrl meterId date) = d.Get (yearRequestUrl meterId date) →
      GetConsumptionByMeterAndYear c u meterId date =
        GetConsumptionByMeterAndYear d u meterId date) := by
  have hday : dayRequestUrl meterId date =
      "https://smartmeter.netz-noe.at/orchestration/ConsumptionRecord/Day?meterId=" ++ meterId
        ++ "&day=" ++ String.mk (appendInt date.Year 4 ++ '-' :: appendInt date.Month 2
        ++ '-' :: appendInt date.Day 2) := by
    apply String.ext
    simp [dayRequestUrl, CONSUMPTION_DAY_URL, Sprintf, doPrintf, formatVerb, extraArgs, CivilTime.Format,
      layoutDay, formatChunk]
  refine ⟨hday, ?_, ?_, ?_, ?_, ?_, ?_, ?_⟩
  · intro y0 y1 m0 m1 d0 d1
    rw [hday, appendInt_four _ y0 y1, appendInt_two _ (by omega) (by omega),
      appendInt_two _ (by omega) (by omega)]
    rfl
  · apply String.ext
    simp [monthRequestUrl, CONSUMPTION_MONTH_URL, Sprintf, doPrintf, formatVerb, extraArgs]
  · exact formatInt_ne_month_name _
  · apply String.ext
    simp [yearRequestUrl, CONSUMPTION_YEAR_URL, Sprintf, doPrintf, formatVerb, extraArgs]
  · intro c d u h
    simp only [GetConsumptionByMeterAndDate, h]
  · intro c d u h
    simp only [GetConsumptionByMeterAndYearAndMonth, h]
  · intro c d u h
    simp only [GetConsumptionByMeterAndYear, h]

theorem consumption_request_urls_witness :
    dayRequestUrl "AT001" sampleDate =
      "https://smartmeter.netz-noe.at/orchestration/ConsumptionRecord/Day?meterId=" ++ "AT001"
        ++ "&day=" ++ String.mk ['2', '0', '2', '1', '-', '0', '5', '-', '0', '1'] :=
  (consumption_request_urls (P := Unit) (F := Nat) "AT001" sampleDate).2.1
    (by decide) (by decide) (by decide) (by decide) (by decide) (by decide)

/-! ### The date parsers -/

theorem digit_toNat : ∀ d : Fin 10, (digit d).toNat = 48 + d.val := by decide

theorem digit_ne_quote (d : Fin 10) : digit d ≠ '"' := by
  intro h
  have := digit_toNat d
  rw [h] at this
  simp at this
  omega

theorem isDigit_zero (d : Fin 10) (r : List Char) : isDigit (digit d :: r) 0 = true := by
  simp [isDigit, digit_toNat]
  omega

theorem isDigit_one (c : Char) (d : Fin 10) (r : List Char) :
    isDigit (c :: digit d :: r) 1 = true := by
  simp [isDigit, digit_toNat]
  omega

theorem digitValue_digit (d : Fin 10) : digitValue (digit d) = d.val := by
  simp [digitValue, digit_toNat]

theorem getnum_two (a b : Fin 10) (r : List Char) (fixed : Bool) :
    getnum (digit a :: digit b :: r) fixed = some (10 * (a.val : Int) + b.val, r) := by
  simp [getnum, isDigit_zero, isDigit_one, digitValue_digit]
  ring

theorem leadingInt_digit (d : Fin 10) (r : List Char) (x : Nat) (hx : x ≤ 100000000000000000) :
    leadingInt (digit d :: r) x = leadingInt r (x * 10 + d.val) := by
  have h1 : ¬ ((digit d).toNat < '0'.toNat ∨ (digit d).toNat > '9'.toNat) := by
    simp [digit_toNat]; omega
  have h2 : ¬ x > 9223372036854775808 / 10 := by omega
  have h3 : ¬ x * 10 + (digit d).toNat - '0'.toNat > 9223372036854775808 := by
    simp [digit_toNat]; omega
  have h4 : x * 10 + (digit d).toNat - '0'.toNat = x * 10 + d.val := by
    simp [digit_toNat]; omega
  have h5 : ¬ x * 10 + d.val > 9223372036854775808 := by omega
  simp only [leadingInt, h1, h2, if_false, h4, h5]

theorem digitsValue_lt (ds : List (Fin 10)) (x k : Nat) (hx : x < 10 ^ k) :
    digitsValue ds x < 10 ^ (k + ds.length) := by
  induction ds generalizing x k with
  | nil => simpa [digitsValue] using hx
  | cons d rest ih =>
    have hd := d.isLt
    have : x * 10 + d.val < 10 ^ (k + 1) := by
      rw [pow_succ]; omega
    have := ih (x * 10 + d.val) (k + 1) this
    simpa [digitsValue, Nat.add_assoc, Nat.add_comm 1] using this

theorem leadingInt_digits (ds : List (Fin 10)) (x k : Nat) (hx : x < 10 ^ k)
    (hk : k + ds.length ≤ 17) :
    leadingInt (ds.map digit) x = some (digitsValue ds x, []) := by
  induction ds generalizing x k with
  | nil => simp [leadingInt, digitsValue]
  | cons d rest ih =>
    have hd := d.isLt
    simp only [List.length_cons] at hk
    have hb : x ≤ 100000000000000000 := by
      have : (10 : Nat) ^ k ≤ 10 ^ 17 := Nat.pow_le_pow_right (by norm_num) (by omega)
      omega
    have hx1 : x * 10 + d.val < 10 ^ (k + 1) := by
      rw [pow_succ]; omega
    rw [List.map_cons, leadingInt_digit _ _ _ hb, ih _ (k + 1) hx1 (by omega)]
    simp [digitsValue]

theorem atoi_digits (d : Fin 10) (ds : List (Fin 10)) (h : ds.length ≤ 15) :
    atoi ((d :: ds).map digit) = some ((digitsValue (d :: ds) 0 : Nat) : Int) := by
  have hm : ((d :: ds).map digit).head? = some (digit d) := rfl
  have h1 : digit d ≠ '-' := by
    intro e; have := digit_toNat d; rw [e] at this; simp at this; omega
  have h2 : digit d ≠ '+' := by
    intro e; have := digit_toNat d; rw [e] at this; simp at this; omega
  unfold atoi
  rw [hm]
  simp only [Option.some.injEq, h1, h2, or_self, if_false, decide_False]
  rw [leadingInt_digits (d :: ds) 0 0 (by norm_num) (by simp; omega)]
  simp

theorem atoi_four (a b c d : Fin 10) :
    atoi [digit a, digit b, digit c, digit d] =
      some (1000 * (a.val : Int) + 100 * b.val + 10 * c.val + d.val) := by
  have := atoi_digits a [b, c, d] (by simp)
  simp only [List.map_cons, List.map_nil] at this
  rw [this]
  simp [digitsValue]
  ring

theorem takeWhile_digits (ds : List (Fin 10)) :
    (ds.map digit).takeWhile
      (fun c => decide ('0'.toNat ≤ c.toNat) && decide (c.toNat ≤ '9'.toNat)) = ds.map digit := by
  rw [List.takeWhile_eq_self_iff]
  intro c hc
  simp only [List.mem_map] at hc
  obtain ⟨d, _, rfl⟩ := hc
  simp [digit_toNat]
  omega

theorem digitsEnd_fraction_one (ds : List (Fin 10)) :
    digitsEnd ('.' :: ds.map digit) 1 = 1 + ds.length := by
  simp only [digitsEnd, List.drop_succ_cons, List.drop_zero, takeWhile_digits, List.length_map]

theorem digitsEnd_fraction_two (d : Fin 10) (ds : List (Fin 10)) :
    digitsEnd ('.' :: digit d :: ds.map digit) 2 = 2 + ds.length := by
  simp only [digitsEnd, List.drop_succ_cons, List.drop_zero, takeWhile_digits, List.length_map]

theorem parseNanoseconds_fraction (d : Fin 10) (ds : List (Fin 10)) :
    parseNanoseconds ('.' :: (d :: ds).map digit) (1 + (d :: ds).length) =
      some (fractionNanos (d :: ds)) := by
  have hc : commaOrPeriod (('.' :: (d :: ds).map digit).getD 0 ' ') = true := by
    simp [commaOrPeriod]
  have harg : ((if 1 + (d :: ds).length > 10 then ('.' :: (d :: ds).map digit).take 10
        else ('.' :: (d :: ds).map digit)).take
        (if 1 + (d :: ds).length > 10 then 10 else 1 + (d :: ds).length)).drop 1
      = ((d :: ds).take 9).map digit := by
    by_cases h : 1 + (d :: ds).length > 10
    · simp only [h, if_true]
      rw [List.take_take]
      simp [List.map_take]
    · simp only [h, if_false]
      have h9 : (d :: ds).length ≤ 9 := by omega
      rw [List.take_of_length_le (by simp at h9 ⊢; omega), List.take_of_length_le h9]
      simp
  have hexp : 10 - (if 1 + (d :: ds).length > 10 then 10 else 1 + (d :: ds).length)
      = 9 - ((d :: ds).take 9).length := by
    by_cases h : 1 + (d :: ds).length > 10
    · simp only [h, if_true, List.length_take]
      omega
    · simp only [h, if_false, List.length_take]
      omega
  have htake : (d :: ds).take 9 = d :: ds.take 8 := by simp
  unfold parseNanoseconds
  simp only [hc, Bool.not_true, Bool.false_eq_true, if_false, harg, hexp]
  rw [htake, atoi_digits d (ds.take 8) (by simp)]
  simp only [fractionNanos, htake]
  have hnn : ¬ (((digitsValue (d :: List.take 8 ds) 0 : Nat) : Int) < 0) := by omega
  simp only [hnn, if_false]

theorem Trim_quoted (text : List Char) (h : ∀ c ∈ text, c ≠ '"') :
    Trim (quoted text) "\"" = String.mk text := by
  unfold Trim quoted
  congr 1
  cases text with
  | nil => decide
  | cons c rest =>
    have hc : c ≠ '"' := h c (by simp)
    have hq : ("\"".toList.contains '"') = true := by decide
    have hcont : ∀ x : Char, ("\"".toList.contains x) = true ↔ x = '"' := by
      intro x; simp
    have h1 : (String.mk ('"' :: (c :: rest ++ ['"']))).toList.dropWhile
        (fun x => "\"".toList.contains x) = c :: rest ++ ['"'] := by
      simp [List.dropWhile, hc]
    rw [h1]
    rw [List.rdropWhile_concat_pos _ _ _ hq]
    rw [List.rdropWhile_eq_self_iff]
    intro hl
    have hmem := List.getLast_mem hl
    have := h _ hmem
    simpa using this

theorem fractionNanos_nil : fractionNanos [] = 0 := by decide

/-- The seconds and the fraction, read under a layout that ends in `05.99`. -/
theorem parseLoop_tail_fraction (st : ParseState) (s1 s0 : Fin 10) (frac : List (Fin 10))
    (n : Nat) (hv : st.value = digit s1 :: digit s0 :: fractionText frac)
    (hs : 10 * (s1.val : Int) + s0.val < 60) (hn : st.nsec = 0) :
    parseLoop [.stdZeroSecond, .stdFracSecond9 n] st =
      some { st with value := [], sec := 10 * (s1.val : Int) + s0.val,
                     nsec := fractionNanos frac } := by
  have hs0 : ¬ (10 * (s1.val : Int) + s0.val < 0) := by omega
  have hs1 : ¬ (60 ≤ 10 * (s1.val : Int) + s0.val) := by omega
  cases frac with
  | nil =>
    simp [parseLoop, hv, getnum_two, fractionText, hs0, hs1, fractionNanos_nil, hn]
  | cons d ds =>
    have hft : fractionText (d :: ds) = '.' :: (d :: ds).map digit := by simp [fractionText]
    have hlen : ('.' :: (d :: ds).map digit).length ≥ 2 := by simp
    have hcp : commaOrPeriod (('.' :: (d :: ds).map digit).getD 0 ' ') = true := by
      simp [commaOrPeriod]
    have hdig : isDigit ('.' :: (d :: ds).map digit) 1 = true := isDigit_one _ _ _
    have hde : digitsEnd ('.' :: (d :: ds).map digit) 1 - 1 = (d :: ds).length := by
      rw [digitsEnd_fraction_one]; omega
    have hpn := parseNanoseconds_fraction d ds
    have hdrop : ('.' :: (d :: ds).map digit).drop (1 + (d :: ds).length) = [] := by
      apply List.drop_of_length_le; simp; omega
    simp only [parseLoop, hv, getnum_two, hft, hs0, hs1, or_self, if_false, hlen, hcp, hdig,
      and_self, if_true, nextStd, List.length_cons, List.length_map, ge_iff_le]
    simp only [List.length_cons, List.length_map, List.map_cons] at hlen hde hpn hdrop
    simp [hde, hpn, hdrop]

/-- The seconds and the fraction, read under a layout that ends in `05`. -/
theorem parseLoop_tail_seconds (st : ParseState) (s1 s0 : Fin 10) (frac : List (Fin 10))
    (hv : st.value = digit s1 :: digit s0 :: fractionText frac)
    (hs : 10 * (s1.val : Int) + s0.val < 60) (hn : st.nsec = 0) :
    parseLoop [.stdZeroSecond] st =
      some { st with value := [], sec := 10 * (s1.val : Int) + s0.val,
                     nsec := fractionNanos frac } := by
  have hs0 : ¬ (10 * (s1.val : Int) + s0.val < 0) := by omega
  have hs1 : ¬ (60 ≤ 10 * (s1.val : Int) + s0.val) := by omega
  cases frac with
  | nil =>
    simp [parseLoop, hv, getnum_two, fractionText, hs0, hs1, fractionNanos_nil, hn]
  | cons d ds =>
    have hft : fractionText (d :: ds) = '.' :: (d :: ds).map digit := by simp [fractionText]
    have hlen : ('.' :: (d :: ds).map digit).length ≥ 2 := by simp
    have hcp : commaOrPeriod (('.' :: (d :: ds).map digit).getD 0 ' ') = true := by
      simp [commaOrPeriod]
    have hdig : isDigit ('.' :: (d :: ds).map digit) 1 = true := isDigit_one _ _ _
    have hde : digitsEnd ('.' :: (d :: ds).map digit) 2 = 1 + (d :: ds).length := by
      rw [List.map_cons, digitsEnd_fraction_two]; simp; omega
    have hpn := parseNanoseconds_fraction d ds
    have hdrop : ('.' :: (d :: ds).map digit).drop (1 + (d :: ds).length) = [] := by
      apply List.drop_of_length_le; simp; omega
    simp only [parseLoop, hv, getnum_two, hft, hs0, hs1, or_self, if_false, hlen, hcp, hdig,
      and_self, if_true, nextStd, hde, hpn, hdrop]
    simp

/-- The chunks of a layout `2006-01-02T15:04:` read the date, the hour and the
minute of a stamp and leave the rest of the text to the rest of the
layout. -/
theorem parseLoop_date_hour_minute (t : Stamp) (rest : List Chunk) (tail : List Char)
    (hm1 : 1 ≤ t.month) (hm2 : t.month ≤ 12) (hh : t.hour < 24) (hmi : t.minute < 60) :
    parseLoop (.stdLongYear :: .lit '-' :: .stdZeroMonth :: .lit '-' :: .stdZeroDay :: .lit 'T'
        :: .stdHour :: .lit ':' :: .stdZeroMinute :: .lit ':' :: rest)
      ⟨digit t.y3 :: digit t.y2 :: digit t.y1 :: digit t.y0 :: '-' :: digit t.mo1 :: digit t.mo0
        :: '-' :: digit t.d1 :: digit t.d0 :: 'T' :: digit t.h1 :: digit t.h0 :: ':'
        :: digit t.mi1 :: digit t.mi0 :: ':' :: tail, 0, -1, -1, 0, 0, 0, 0⟩ =
    parseLoop rest ⟨tail, t.year, t.month, t.day, t.hour, t.minute, 0, 0⟩ := by
  simp only [Stamp.month, Stamp.hour, Stamp.minute] at hm1 hm2 hh hmi
  have c1 : ¬ (10 * (t.mo1.val : Int) + t.mo0.val ≤ 0 ∨ 12 < 10 * (t.mo1.val : Int) + t.mo0.val) := by
    omega
  have c2 : ¬ (10 * (t.h1.val : Int) + t.h0.val < 0 ∨ 24 ≤ 10 * (t.h1.val : Int) + t.h0.val) := by
    omega
  have c3 : ¬ (10 * (t.mi1.val : Int) + t.mi0.val < 0 ∨ 60 ≤ 10 * (t.mi1.val : Int) + t.mi0.val) := by
    omega
  have c0 : ¬ ((digit t.y3 :: digit t.y2 :: digit t.y1 :: digit t.y0 :: '-' :: digit t.mo1
      :: digit t.mo0 :: '-' :: digit t.d1 :: digit t.d0 :: 'T' :: digit t.h1 :: digit t.h0 :: ':'
      :: digit t.mi1 :: digit t.mi0 :: ':' :: tail).length < 4 ∨
      (!isDigit (digit t.y3 :: digit t.y2 :: digit t.y1 :: digit t.y0 :: '-' :: digit t.mo1
      :: digit t.mo0 :: '-' :: digit t.d1 :: digit t.d0 :: 'T' :: digit t.h1 :: digit t.h0 :: ':'
      :: digit t.mi1 :: digit t.mi0 :: ':' :: tail) 0) = true) := by
    simp [isDigit_zero]
  simp only [parseLoop, c0, if_false, List.take, atoi_four, List.drop, getnum_two, c1, c2, c3,
    ne_eq, not_true_eq_false, Stamp.year, Stamp.month, Stamp.day, Stamp.hour, Stamp.minute]

theorem Stamp.text_ne_quote (t : Stamp) (frac : List (Fin 10)) :
    ∀ c ∈ t.text ++ fractionText frac, c ≠ '"' := by
  intro c hc
  rw [List.mem_append] at hc
  rcases hc with hc | hc
  · simp only [Stamp.text, List.mem_cons, List.mem_singleton, List.not_mem_nil, or_false] at hc
    rcases hc with h | h | h | h | h | h | h | h | h | h | h | h | h | h | h | h | h | h | h <;>
      subst h <;> first | exact digit_ne_quote _ | decide
  · unfold fractionText at hc
    split at hc
    · simp at hc
    · simp only [List.mem_cons, List.mem_map] at hc
      rcases hc with h | ⟨d, _, h⟩
      · subst h; decide
      · subst h; exact digit_ne_quote _

theorem Parse_layoutFraction (t : Stamp) (frac : List (Fin 10)) (hv : t.valid) :
    Parse layoutFraction (String.mk (t.text ++ fractionText frac)) =
      some (Date t.year t.month t.day t.hour t.minute t.second (fractionNanos frac)) := by
  obtain ⟨hm1, hm2, hd1, hd2, hh, hmi, hs⟩ := hv
  have hloop : parseLoop layoutFraction ⟨t.text ++ fractionText frac, 0, -1, -1, 0, 0, 0, 0⟩ =
      some ⟨[], t.year, t.month, t.day, t.hour, t.minute, t.second, fractionNanos frac⟩ := by
    simp only [layoutFraction, layoutSeconds, Stamp.text, List.cons_append, List.nil_append]
    rw [parseLoop_date_hour_minute t _ _ hm1 hm2 hh hmi]
    rw [parseLoop_tail_fraction _ t.s1 t.s0 frac 2 rfl hs rfl]
    rfl
  have hmn : ¬ t.month < 0 := by omega
  have hdn : ¬ t.day < 0 := by omega
  have hdv : ¬ (t.day < 1 ∨ t.day > daysIn t.month t.year) := by omega
  simp only [Parse, String.toList, hloop, hmn, hdn, hdv, if_false]

theorem Parse_layoutSeconds (t : Stamp) (frac : List (Fin 10)) (hv : t.valid) :
    Parse layoutSeconds (String.mk (t.text ++ fractionText frac)) =
      some (Date t.year t.month t.day t.hour t.minute t.second (fractionNanos frac)) := by
  obtain ⟨hm1, hm2, hd1, hd2, hh, hmi, hs⟩ := hv
  have hloop : parseLoop layoutSeconds ⟨t.text ++ fractionText frac, 0, -1, -1, 0, 0, 0, 0⟩ =
      some ⟨[], t.year, t.month, t.day, t.hour, t.minute, t.second, fractionNanos frac⟩ := by
    simp only [layoutSeconds, Stamp.text, List.cons_append, List.nil_append]
    rw [parseLoop_date_hour_minute t _ _ hm1 hm2 hh hmi]
    rw [parseLoop_tail_seconds _ t.s1 t.s0 frac rfl hs rfl]
    rfl
  have hmn : ¬ t.month < 0 := by omega
  have hdn : ¬ t.day < 0 := by omega
  have hdv : ¬ (t.day < 1 ∨ t.day > daysIn t.month t.year) := by omega
  simp only [Parse, String.toList, hloop, hmn, hdn, hdv, if_false]

theorem parseLoop_congr (c : Chunk) (hc : c ≠ .stdZeroSecond) (l1 l2 : List Chunk)
    (h : ∀ st, parseLoop l1 st = parseLoop l2 st) (st : ParseState) :
    parseLoop (c :: l1) st = parseLoop (c :: l2) st := by
  cases c with
  | stdZeroSecond => exact absurd rfl hc
  | lit a => simp only [parseLoop, h]
  | stdLongYear => simp only [parseLoop, h]
  | stdZeroMonth => simp only [parseLoop, h]
  | stdZeroDay => simp only [parseLoop, h]
  | stdHour => simp only [parseLoop, h]
  | stdZeroMinute => simp only [parseLoop, h]
  | stdFracSecond9 n => simp only [parseLoop, h]

theorem digitsEnd_step (value : List Char) (h : isDigit value 1 = true) :
    1 + (digitsEnd value 1 - 1) = digitsEnd value 2 := by
  match value with
  | [] => simp [isDigit] at h
  | [_] => simp [isDigit] at h
  | a :: b :: rest =>
    simp only [isDigit, List.get?_cons_succ, List.get?_cons_zero] at h
    simp only [digitsEnd, List.drop_succ_cons, List.drop_zero, List.takeWhile_cons, h, if_true,
      List.length_cons]
    omega

/-- After the seconds, a layout that stops there and a layout that goes on
with `.99` read the same text in the same way. -/
theorem parseLoop_seconds_eq_fraction (n : Nat) (st : ParseState) :
    parseLoop [.stdZeroSecond] st = parseLoop [.stdZeroSecond, .stdFracSecond9 n] st := by
  simp only [parseLoop, nextStd]
  cases hg : getnum st.value true with
  | none => rfl
  | some p =>
    obtain ⟨sec, value⟩ := p
    simp only
    by_cases hr : sec < 0 ∨ 60 ≤ sec
    · rw [if_pos hr, if_pos hr]
    · rw [if_neg hr, if_neg hr]
      by_cases hf : value.length ≥ 2 ∧ commaOrPeriod (value.getD 0 ' ') = true ∧
          isDigit value 1 = true
      · have hnf : ¬ (value.length < 2 ∨ (!commaOrPeriod (value.getD 0 ' ')) = true ∨
            (!isDigit value 1) = true) := by
          obtain ⟨h1, h2, h3⟩ := hf
          rintro (h | h | h)
          · omega
          · rw [h2] at h; exact absurd h (by decide)
          · rw [h3] at h; exact absurd h (by decide)
        rw [if_pos hf, if_pos hf, if_neg hnf, digitsEnd_step value hf.2.2]
      · have hnf : (value.length < 2 ∨ (!commaOrPeriod (value.getD 0 ' ')) = true ∨
            (!isDigit value 1) = true) := by
          by_contra hcon
          apply hf
          simp only [not_or, Bool.not_eq_true', Bool.not_eq_false, not_lt] at hcon
          simpa using hcon
        rw [if_neg hf, if_neg hf, if_pos hnf]

/-- The layouts `2006-01-02T15:04:05` and `2006-01-02T15:04:05.99` parse every
text to the same result. -/
theorem Parse_layoutSeconds_eq_layoutFraction (value : String) :
    Parse layoutSeconds value = Parse layoutFraction value := by
  have h : ∀ st, parseLoop layoutSeconds st = parseLoop layoutFraction st := by
    intro st
    simp only [layoutFraction, layoutSeconds, List.cons_append, List.nil_append]
    iterate 10 (apply parseLoop_congr _ (by decide); intro _)
    exact parseLoop_seconds_eq_fraction 2 _
  simp only [Parse, h]

/-- C5 (as amended): the registerDate parser accepts every text
`YYYY-MM-DDTHH:MM:SS` with valid calendar fields, alone or followed by a
period and any number of fraction digits (one, two, three or more); the
result is the `Date` of the fields with the fraction, cut to nine digits, as
nanoseconds. -/
theorem LasmRegisterDate_accepts (t : Stamp) (frac : List (Fin 10)) (hv : t.valid) :
    LasmRegisterDate.UnmarshalJSON (quoted (t.text ++ fractionText frac)) =
      some (Date t.year t.month t.day t.hour t.minute t.second (fractionNanos frac)) := by
  unfold LasmRegisterDate.UnmarshalJSON
  simp only [Trim_quoted _ (Stamp.text_ne_quote t frac)]
  exact Parse_layoutFraction t frac hv

theorem LasmRegisterDate_accepts_witness :
    sampleStamp.valid ∧
    LasmRegisterDate.UnmarshalJSON (quoted (sampleStamp.text ++ fractionText [1, 2, 3, 4])) =
      some (Date sampleStamp.year sampleStamp.month sampleStamp.day sampleStamp.hour
        sampleStamp.minute sampleStamp.second (fractionNanos [1, 2, 3, 4])) :=
  ⟨by decide, LasmRegisterDate_accepts sampleStamp [1, 2, 3, 4] (by decide)⟩

/-- C5 as stated fails: the registerDate parser accepts a fraction of three
digits. -/
theorem LasmRegisterDate_three_digits :
    LasmRegisterDate.UnmarshalJSON "\"2021-05-01T10:00:00.123\"" =
      some (Date 2021 5 1 10 0 0 123000000) := by
  decide

/-- C6 (as amended): the validFrom parser returns on every input what the
registerDate parser returns; it accepts every text `YYYY-MM-DDTHH:MM:SS` with
valid calendar fields, alone or followed by a fractional-second part, and
the fraction is kept as the nanoseconds of the result. -/
theorem ValidFromDate_accepts :
    (∀ b : String, ValidFromDate.UnmarshalJSON b = LasmRegisterDate.UnmarshalJSON b) ∧
    (∀ (t : Stamp) (frac : List (Fin 10)), t.valid →
      ValidFromDate.UnmarshalJSON (quoted (t.text ++ fractionText frac)) =
        some (Date t.year t.month t.day t.hour t.minute t.second (fractionNanos frac))) := by
  refine ⟨?_, ?_⟩
  · intro b
    unfold ValidFromDate.UnmarshalJSON LasmRegisterDate.UnmarshalJSON
    exact Parse_layoutSeconds_eq_layoutFraction _
  · intro t frac hv
    unfold ValidFromDate.UnmarshalJSON
    simp only [Trim_quoted _ (Stamp.text_ne_quote t frac)]
    exact Parse_layoutSeconds t frac hv

theorem ValidFromDate_accepts_witness :
    ValidFromDate.UnmarshalJSON (quoted (sampleStamp.text ++ fractionText [1, 2])) =
      some (Date sampleStamp.year sampleStamp.month sampleStamp.day sampleStamp.hour
        sampleStamp.minute sampleStamp.second (fractionNanos [1, 2])) :=
  ValidFromDate_accepts.2 sampleStamp [1, 2] (by decide)

/-- C6 as stated fails: the validFrom parser accepts a registerDate-style
text with a fraction and keeps the fraction. -/
theorem ValidFromDate_fraction_accepted :
    ValidFromDate.UnmarshalJSON "\"2021-05-01T10:00:00.12\"" =
      some (Date 2021 5 1 10 0 0 120000000) := by
  decide

/-! ### The login body -/

theorem getu4_low : ∀ n : Fin 128,
    getu4 '0' '0' (hex (n.val >>> 4)) (hex (n.val &&& 0xF)) = some n.val := by
  decide

theorem decodeStep_plain (c : Char) (tail : List Char) (h1 : c ≠ '"') (h2 : c ≠ '\\')
    (h3 : ¬ c.toNat < 0x20) : decodeStep (c :: tail) = some (some c, tail) := by
  simp only [decodeStep, h1, h2, h3, if_false]

theorem decodeStep_escape (e ch : Char) (tail : List Char) (h1 : e ≠ 'u')
    (h2 : escapeChar e = some ch) :
    decodeStep ('\\' :: e :: tail) = some (some ch, tail) := by
  have hq : ('\\' : Char) ≠ '"' := by decide
  simp only [decodeStep, hq, if_false, if_true, h1, h2]

theorem decodeStep_unicode (h1 h2 h3 h4 : Char) (rr : Nat) (tail : List Char)
    (hu : getu4 h1 h2 h3 h4 = some rr) (hs : ¬ (0xd800 ≤ rr ∧ rr < 0xe000)) :
    decodeStep ('\\' :: 'u' :: h1 :: h2 :: h3 :: h4 :: tail) =
      some (some (Char.ofNat rr), tail) := by
  have hq : ('\\' : Char) ≠ '"' := by decide
  simp only [decodeStep, hq, if_false, if_true, hu, hs]

theorem char_eq_of_toNat {c d : Char} (h : c.toNat = d.toNat) : c = d := by
  apply Char.ext
  apply UInt32.ext
  exact h

theorem decodeStep_appendStringStep (g : GoChar) (tail : List Char) :
    decodeStep (appendStringStep g ++ tail) = some (some (coerceChar g), tail) := by
  cases g with
  | invalid b =>
    simp only [appendStringStep, List.cons_append, List.nil_append, coerceChar]
    exact decodeStep_unicode _ _ _ _ 0xfffd tail (by decide) (by decide)
  | rune c =>
    simp only [appendStringStep, coerceChar]
    by_cases hlow : c.toNat < 0x80
    · simp only [hlow, if_true]
      by_cases hsafe : htmlSafeSet c = true
      · simp only [hsafe, if_true, List.cons_append, List.nil_append]
        simp only [htmlSafeSet, Bool.and_eq_true, decide_eq_true_eq, bne_iff_ne, ne_eq] at hsafe
        obtain ⟨⟨⟨⟨⟨h20, hq⟩, hb⟩, _⟩, _⟩, _⟩ := hsafe
        exact decodeStep_plain c tail hq hb (by omega)
      · simp only [hsafe, Bool.false_eq_true, if_false]
        by_cases hbq : c = '\\' ∨ c = '"'
        · simp only [hbq, if_true, List.cons_append, List.nil_append]
          rcases hbq with h | h <;> subst h <;>
            exact decodeStep_escape _ _ tail (by decide) (by decide)
        · simp only [hbq, if_false]
          by_cases h8 : c = '\x08'
          · subst h8
            exact decodeStep_escape _ _ tail (by decide) (by decide)
          by_cases hc : c = '\x0c'
          · subst hc
            exact decodeStep_escape _ _ tail (by decide) (by decide)
          by_cases hn : c = '\n'
          · subst hn
            exact decodeStep_escape _ _ tail (by decide) (by decide)
          by_cases hr : c = '\r'
          · subst hr
            exact decodeStep_escape _ _ tail (by decide) (by decide)
          by_cases ht : c = '\t'
          · subst ht
            exact decodeStep_escape _ _ tail (by decide) (by decide)
          simp only [h8, hc, hn, hr, ht, if_false, List.cons_append, List.nil_append]
          have hu := getu4_low ⟨c.toNat, hlow⟩
          simp only at hu
          rw [decodeStep_unicode _ _ _ _ c.toNat tail hu (by omega)]
          simp [Char.ofNat_toNat]
    · simp only [hlow, if_false]
      by_cases hls : c = '\u2028' ∨ c = '\u2029'
      · simp only [hls, if_true, List.cons_append, List.nil_append]
        rcases hls with h | h <;> subst h
        · exact decodeStep_unicode _ _ _ _ 0x2028 tail (by decide) (by decide)
        · exact decodeStep_unicode _ _ _ _ 0x2029 tail (by decide) (by decide)
      · simp only [hls, if_false, List.cons_append, List.nil_append]
        refine decodeStep_plain c tail ?_ ?_ (by omega)
        · intro h; subst h; exact hlow (by decide)
        · intro h; subst h; exact hlow (by decide)

theorem appendString_eq (src : GoString) (tail : List Char) :
    appendString src ++ tail = '"' :: (stringBody src ++ '"' :: tail) := by
  simp [appendString, stringBody]

theorem appendStringStep_length (g : GoChar) : 1 ≤ (appendStringStep g).length := by
  cases g with
  | invalid b => simp [appendStringStep]
  | rune c =>
    simp only [appendStringStep]
    repeat' split
    all_goals simp

theorem stringBody_length (src : GoString) : src.length ≤ (stringBody src).length := by
  induction src with
  | nil => simp [stringBody]
  | cons g gs ih =>
    have := appendStringStep_length g
    simp only [stringBody, List.map_cons, List.flatten_cons, List.length_append,
      List.length_cons] at ih ⊢
    omega

/-- Reading back what `appendString` wrote gives the string with U+FFFD in
place of each invalid byte, and stops right after the closing quote. -/
theorem decodeString_stringBody (src : GoString) (rest : List Char) (fuel : Nat)
    (hf : src.length < fuel) :
    decodeString fuel (stringBody src ++ '"' :: rest) = some (src.map coerceChar, rest) := by
  induction src generalizing fuel with
  | nil =>
    obtain ⟨f, rfl⟩ : ∃ f, fuel = f + 1 := ⟨fuel - 1, by omega⟩
    simp [stringBody, decodeString, decodeStep]
  | cons g gs ih =>
    obtain ⟨f, rfl⟩ : ∃ f, fuel = f + 1 := ⟨fuel - 1, by omega⟩
    have hstep : stringBody (g :: gs) ++ '"' :: rest =
        appendStringStep g ++ (stringBody gs ++ '"' :: rest) := by
      simp [stringBody]
    simp only [List.length_cons] at hf
    rw [hstep, decodeString, decodeStep_appendStringStep]
    simp only [ih f (by omega), List.map_cons]

theorem decodeString_stringBody_len (src : GoString) (rest : List Char) :
    decodeString ((stringBody src ++ '"' :: rest).length + 1) (stringBody src ++ '"' :: rest) =
      some (src.map coerceChar, rest) := by
  apply decodeString_stringBody
  have := stringBody_length src
  simp only [List.length_append, List.length_cons]
  omega

theorem toValidUTF8_eq (src : GoString) : String.mk (src.map coerceChar) = src.toValidUTF8 :=
  rfl

theorem skipSpace_cons (c : Char) (rest : List Char) (h : isSpace c = false) :
    skipSpace (c :: rest) = c :: rest := by
  simp [skipSpace, List.dropWhile, h]

/-- The last member of an object, as `Marshal` writes it. -/
theorem decodeMembers_last (k v : GoString) (fuel : Nat) :
    decodeMembers (fuel + 1)
      ('"' :: (stringBody k ++ '"' :: ':' :: '"' :: (stringBody v ++ '"' :: ['}']))) =
      some [(k.toValidUTF8, v.toValidUTF8)] := by
  rw [decodeMembers]
  simp only [ne_eq, not_true_eq_false, if_false, decodeString_stringBody_len]
  rw [skipSpace_cons _ _ (by decide)]
  simp only [ne_eq, not_true_eq_false, if_false]
  rw [skipSpace_cons _ _ (by decide)]
  simp only [ne_eq, not_true_eq_false, if_false, decodeString_stringBody_len]
  rw [skipSpace_cons _ _ (by decide)]
  have h1 : ¬ ('}' : Char) = ',' := by decide
  simp only [h1, if_false, if_true, skipSpace, List.dropWhile, toValidUTF8_eq]

/-- A member that is followed by another one. -/
theorem decodeMembers_more (k v : GoString) (fuel : Nat) (more : List Char) :
    decodeMembers (fuel + 1)
      ('"' :: (stringBody k ++ '"' :: ':' :: '"' :: (stringBody v ++ '"' :: ',' :: '"' :: more))) =
      match decodeMembers fuel ('"' :: more) with
      | none => none
      | some ms => some ((k.toValidUTF8, v.toValidUTF8) :: ms) := by
  rw [decodeMembers]
  simp only [ne_eq, not_true_eq_false, if_false, decodeString_stringBody_len]
  rw [skipSpace_cons _ _ (by decide)]
  simp only [ne_eq, not_true_eq_false, if_false]
  rw [skipSpace_cons _ _ (by decide)]
  simp only [ne_eq, not_true_eq_false, if_false, decodeString_stringBody_len]
  rw [skipSpace_cons _ _ (by decide)]
  simp only [if_true]
  rw [skipSpace_cons _ _ (by decide)]
  simp only [toValidUTF8_eq]

theorem Marshal_login (username password : GoString) :
    Marshal [("user", username), ("pwd", password)] =
      String.mk ('{' :: '"' :: (stringBody (GoString.ofString "pwd") ++ '"' :: ':' :: '"' ::
        (stringBody password ++ '"' :: ',' :: '"' :: (stringBody (GoString.ofString "user") ++
        '"' :: ':' :: '"' :: (stringBody username ++ '"' :: ['}']))))) := by
  have hsort : List.insertionSort (fun a b : String × GoString => keyLE a.1.toList b.1.toList = true)
      [("user", username), ("pwd", password)] = [("pwd", password), ("user", username)] := by
    have h1 : keyLE ['u', 's', 'e', 'r'] ['p', 'w', 'd'] = false := by decide
    simp [List.insertionSort, List.orderedInsert, h1]
  unfold Marshal
  rw [hsort]
  simp only [encodeMembers, appendString_eq, List.cons_append, List.append_assoc,
    List.nil_append]

/-- Decoding the login body: the two entries, each value being the
credential with U+FFFD for every invalid byte. -/
theorem Unmarshal_Marshal_login (username password : GoString) :
    UnmarshalStringMap (Marshal [("user", username), ("pwd", password)]) =
      some [("pwd", password.toValidUTF8), ("user", username.toValidUTF8)] := by
  rw [Marshal_login]
  unfold UnmarshalStringMap
  simp only [String.toList]
  rw [skipSpace_cons _ _ (by decide)]
  simp only [ne_eq, not_true_eq_false, if_false]
  rw [skipSpace_cons _ _ (by decide)]
  have h1 : ¬ ('"' : Char) = '}' := by decide
  simp only [h1, if_false]
  have hf : ∀ l : List Char, (String.mk ('{' :: '"' :: l)).length = l.length + 1 + 1 :=
    fun _ => rfl
  rw [hf, decodeMembers_more, decodeMembers_last]
  have e1 : (GoString.ofString "pwd").toValidUTF8 = "pwd" := by decide
  have e2 : (GoString.ofString "user").toValidUTF8 = "user" := by decide
  simp only [e1, e2]

theorem ofString_toValidUTF8 (s : String) : (GoString.ofString s).toValidUTF8 = s := by
  unfold GoString.toValidUTF8 GoString.ofString
  apply String.ext
  simp only [List.map_map]
  have : (coerceChar ∘ GoChar.rune) = id := by funext c; rfl
  simp [this]

/-- C10 (as amended): for every username and password the login body
decodes to an object with exactly the keys `pwd` and `user`, whose values
are the credentials with U+FFFD in place of every byte that is not valid
UTF-8; for credentials that are valid text the round trip is the identity on
both fields. -/
theorem login_body_round_trip :
    (∀ username password : GoString,
      UnmarshalStringMap (Marshal [("user", username), ("pwd", password)]) =
        some [("pwd", password.toValidUTF8), ("user", username.toValidUTF8)]) ∧
    (∀ username password : String,
      UnmarshalStringMap (Marshal [("user", GoString.ofString username),
        ("pwd", GoString.ofString password)]) = some [("pwd", password), ("user", username)]) := by
  refine ⟨Unmarshal_Marshal_login, ?_⟩
  intro username password
  rw [Unmarshal_Marshal_login, ofString_toValidUTF8, ofString_toValidUTF8]

/-- C10 as stated fails: a password with a byte that is not valid UTF-8 (here
`a` followed by the byte `0xff`) comes back from the round trip as `a`
followed by U+FFFD. -/
theorem login_body_invalid_utf8 :
    UnmarshalStringMap (Marshal [("user", GoString.ofString "max"),
        ("pwd", [GoChar.rune 'a', GoChar.invalid 0xff])]) =
      some [("pwd", "a\ufffd"), ("user", "max")] ∧
    GoString.ofString "a\ufffd" ≠ [GoChar.rune 'a', GoChar.invalid 0xff] := by
  decide

/-! ### Decoding into string fields -/

theorem storeString_encoded (s : String) (dst : String) :
    storeString (.string (stringBody (GoString.ofString s))) dst = (s, none) := by
  unfold storeString
  have h := decodeString_stringBody (GoString.ofString s) []
    ((stringBody (GoString.ofString s)).length + 2)
    (by have := stringBody_length (GoString.ofString s); omega)
  simp only [h]
  have := ofString_toValidUTF8 s
  unfold GoString.toValidUTF8 at this
  rw [this]

theorem decodeString_plain (body : List Char) (fuel : Nat) (hf : body.length < fuel)
    (hp : ∀ c ∈ body, c ≠ '"' ∧ c ≠ '\\' ∧ 0x20 ≤ c.toNat) :
    decodeString fuel (body ++ ['"']) = some (body, []) := by
  induction body generalizing fuel with
  | nil =>
    obtain ⟨f, rfl⟩ : ∃ f, fuel = f + 1 := ⟨fuel - 1, by omega⟩
    simp [decodeString, decodeStep]
  | cons c rest ih =>
    obtain ⟨f, rfl⟩ : ∃ f, fuel = f + 1 := ⟨fuel - 1, by omega⟩
    obtain ⟨h1, h2, h3⟩ := hp c (by simp)
    simp only [List.length_cons] at hf
    rw [List.cons_append, decodeString, decodeStep_plain c _ h1 h2 (by omega)]
    simp only [ih f (by omega) (fun d hd => hp d (by simp [hd]))]

theorem lowHalf_shape (l : List Char) (r : Nat) (h : lowHalf (l ++ ['"']) = some r) :
    ∃ k1 k2 k3 k4 rest3, l = '\\' :: 'u' :: k1 :: k2 :: k3 :: k4 :: rest3 := by
  match l, h with
  | [], h => simp [lowHalf] at h
  | [_], h => simp [lowHalf] at h
  | [_, _], h => simp [lowHalf] at h
  | [_, _, _], h => simp [lowHalf] at h
  | [_, _, _, _], h => simp [lowHalf] at h
  | [a, b, c, d, e], h =>
    simp only [lowHalf, List.cons_append, List.nil_append] at h
    split at h
    · have hq : hexValue '"' = none := by decide
      simp [getu4, hq] at h
    · simp at h
  | a :: b :: k1 :: k2 :: k3 :: k4 :: rest3, h =>
    simp only [lowHalf, List.cons_append] at h
    split at h
    · rename_i hab
      obtain ⟨ha, hb⟩ := hab
      subst ha; subst hb
      exact ⟨k1, k2, k3, k4, rest3, rfl⟩
    · simp at h

theorem getu4_isSome (h1 h2 h3 h4 : Char) (e1 : (hexValue h1).isSome = true)
    (e2 : (hexValue h2).isSome = true) (e3 : (hexValue h3).isSome = true)
    (e4 : (hexValue h4).isSome = true) : ∃ rr, getu4 h1 h2 h3 h4 = some rr := by
  obtain ⟨a, ha⟩ := Option.isSome_iff_exists.mp e1
  obtain ⟨b, hb⟩ := Option.isSome_iff_exists.mp e2
  obtain ⟨c, hc⟩ := Option.isSome_iff_exists.mp e3
  obtain ⟨d, hd⟩ := Option.isSome_iff_exists.mp e4
  exact ⟨((a * 16 + b) * 16 + c) * 16 + d, by simp [getu4, ha, hb, hc, hd]⟩

/-- One step of `validBody` on a non-empty text. -/
theorem validBody_cons (fuel : Nat) (c : Char) (rest : List Char) :
    validBody (fuel + 1) (c :: rest) =
      if c = '"' then false
      else if c = '\\' then
        match rest with
        | [] => false
        | e :: rest1 =>
          if e = 'u' then
            match rest1 with
            | h1 :: h2 :: h3 :: h4 :: rest2 =>
              (hexValue h1).isSome && (hexValue h2).isSome && (hexValue h3).isSome &&
                (hexValue h4).isSome && validBody fuel rest2
            | _ => false
          else (escapeChar e).isSome && validBody fuel rest1
      else if c.toNat < 0x20 then false
      else validBody fuel rest := by
  rfl

/-- A string literal the scanner accepts is decoded without error. -/
theorem decodeString_valid (n : Nat) : ∀ (body : List Char) (fv fd : Nat), body.length ≤ n →
    validBody fv body = true → body.length < fd →
    ∃ s, decodeString fd (body ++ ['"']) = some (s, []) := by
  induction n using Nat.strong_induction_on with
  | _ n ih =>
    intro body fv fd hn hv hfd
    obtain ⟨fd1, rfl⟩ : ∃ f, fd = f + 1 := ⟨fd - 1, by omega⟩
    cases body with
    | nil => exact ⟨[], by simp [decodeString, decodeStep]⟩
    | cons c rest =>
      cases fv with
      | zero => simp [validBody] at hv
      | succ fv1 =>
        rw [validBody_cons] at hv
        simp only [List.length_cons] at hn hfd
        by_cases hq : c = '"'
        · simp [hq] at hv
        rw [if_neg hq] at hv
        by_cases hb : c = '\\'
        · rw [if_pos hb] at hv
          subst hb
          cases rest with
          | nil => simp at hv
          | cons e rest1 =>
            simp only [List.length_cons] at hn hfd
            by_cases hu : e = 'u'
            · subst hu
              simp only [if_true] at hv
              match rest1, hv, hn, hfd with
              | [], hv, _, _ => simp at hv
              | [_], hv, _, _ => simp at hv
              | [_, _], hv, _, _ => simp at hv
              | [_, _, _], hv, _, _ => simp at hv
              | h1 :: h2 :: h3 :: h4 :: rest2, hv, hn, hfd =>
                simp only [Bool.and_eq_true] at hv
                obtain ⟨⟨⟨⟨e1, e2⟩, e3⟩, e4⟩, hv2⟩ := hv
                obtain ⟨rr, hrr⟩ := getu4_isSome h1 h2 h3 h4 e1 e2 e3 e4
                simp only [List.length_cons] at hn hfd
                have hstep : decodeStep (('\\' :: 'u' :: h1 :: h2 :: h3 :: h4 :: rest2) ++ ['"']) =
                    if 0xd800 ≤ rr ∧ rr < 0xe000 then
                      match (lowHalf (rest2 ++ ['"'])).bind (decodeRune rr) with
                      | some dec => some (some (Char.ofNat dec), (rest2 ++ ['"']).drop 6)
                      | none => some (some (Char.ofNat 0xfffd), rest2 ++ ['"'])
                    else some (some (Char.ofNat rr), rest2 ++ ['"']) := by
                  have hq1 : ('\\' : Char) ≠ '"' := by decide
                  simp only [List.cons_append, decodeStep, hq1, if_false, if_true, hrr]
                rw [decodeString, hstep]
                by_cases hs : 0xd800 ≤ rr ∧ rr < 0xe000
                · rw [if_pos hs]
                  cases hl : (lowHalf (rest2 ++ ['"'])).bind (decodeRune rr) with
                  | none =>
                    obtain ⟨s, hs2⟩ := ih rest2.length (by omega) rest2 fv1 fd1 le_rfl hv2 (by omega)
                    simp only [hs2]
                    exact ⟨_, rfl⟩
                  | some dec =>
                    obtain ⟨r2, hr2, _⟩ := Option.bind_eq_some.mp hl
                    obtain ⟨k1, k2, k3, k4, rest3, rfl⟩ := lowHalf_shape rest2 r2 hr2
                    cases fv1 with
                    | zero => simp [validBody] at hv2
                    | succ fv2 =>
                      rw [validBody_cons] at hv2
                      simp only [show ¬ ('\\' : Char) = '"' by decide, if_false, if_true,
                        Bool.and_eq_true] at hv2
                      obtain ⟨_, hv3⟩ := hv2
                      simp only [List.length_cons] at hn hfd
                      obtain ⟨s, hs2⟩ := ih rest3.length (by omega) rest3 fv2 fd1 le_rfl hv3
                        (by omega)
                      simp only [List.cons_append, List.drop_succ_cons, List.drop_zero, hs2]
                      exact ⟨_, rfl⟩
                · rw [if_neg hs]
                  obtain ⟨s, hs2⟩ := ih rest2.length (by omega) rest2 fv1 fd1 le_rfl hv2 (by omega)
                  simp only [hs2]
                  exact ⟨_, rfl⟩
            · simp only [hu, if_false, Bool.and_eq_true] at hv
              obtain ⟨he, hv2⟩ := hv
              obtain ⟨ch, hch⟩ := Option.isSome_iff_exists.mp he
              obtain ⟨s, hs2⟩ := ih rest1.length (by omega) rest1 fv1 fd1 le_rfl hv2 (by omega)
              rw [List.cons_append, List.cons_append, decodeString,
                decodeStep_escape e ch _ hu hch]
              simp only [hs2]
              exact ⟨_, rfl⟩
        · rw [if_neg hb] at hv
          by_cases hc : c.toNat < 0x20
          · simp [hc] at hv
          rw [if_neg hc] at hv
          obtain ⟨s, hs2⟩ := ih rest.length (by omega) rest fv1 fd1 le_rfl hv (by omega)
          rw [List.cons_append, decodeString, decodeStep_plain c _ hq hb hc]
          simp only [hs2]
          exact ⟨_, rfl⟩

theorem storeString_plain (body : List Char) (dst : String)
    (hp : ∀ c ∈ body, c ≠ '"' ∧ c ≠ '\\' ∧ 0x20 ≤ c.toNat) :
    storeString (.string body) dst = (String.mk body, none) := by
  simp only [storeString, decodeString_plain body (body.length + 2) (by omega) hp]

/-- One step of the decoder gives the content's next code point, with U+FFFD
for a surrogate without partner. -/
theorem decodeStep_eq_contentStep (input : List Char) :
    decodeStep input =
      (contentStep input).map (fun p => (p.1.map JsonCodePoint.toChar, p.2)) := by
  cases input with
  | nil => rfl
  | cons c rest =>
    simp only [decodeStep, contentStep]
    by_cases hq : c = '"'
    · simp [hq]
    simp only [hq, if_false]
    by_cases hb : c = '\\'
    · simp only [hb, if_true]
      cases rest with
      | nil => rfl
      | cons e rest1 =>
        simp only
        by_cases hu : e = 'u'
        · simp only [hu, if_true]
          match rest1 with
          | [] => rfl
          | [_] => rfl
          | [_, _] => rfl
          | [_, _, _] => rfl
          | h1 :: h2 :: h3 :: h4 :: rest2 =>
            simp only
            cases getu4 h1 h2 h3 h4 with
            | none => rfl
            | some rr =>
              simp only
              by_cases hs : 0xd800 ≤ rr ∧ rr < 0xe000
              · simp only [hs, and_self, if_true]
                cases (lowHalf rest2).bind (decodeRune rr) with
                | none => rfl
                | some dec => rfl
              · simp only [hs, if_false]
                rfl
        · simp only [hu, if_false]
          cases escapeChar e with
          | none => rfl
          | some ch => rfl
    · simp only [hb, if_false]
      by_cases hc : c.toNat < 0x20
      · simp [hc]
      · simp only [hc, if_false]
        rfl

/-- Go's decoder stores the content of the literal, with U+FFFD for every
surrogate without partner. -/
theorem decodeString_eq_contentString (fuel : Nat) (input : List Char) :
    decodeString fuel input =
      (contentString fuel input).map (fun p => (p.1.map JsonCodePoint.toChar, p.2)) := by
  induction fuel generalizing input with
  | zero => rfl
  | succ f ih =>
    rw [decodeString, contentString, decodeStep_eq_contentStep]
    cases hstep : contentStep input with
    | none => rfl
    | some p =>
      obtain ⟨o, rest⟩ := p
      cases o with
      | none => rfl
      | some cp =>
        simp only [Option.map_some', Option.map]
        rw [ih rest]
        cases contentString f rest with
        | none => rfl
        | some q => rfl

/-- A well-formed literal has a content, and the decoder stores it with
U+FFFD for every surrogate without partner. -/
theorem storeString_content (body : List Char) (dst : String)
    (hv : JValue.validString body) :
    ∃ cs, JValue.content body = some cs ∧
      storeString (.string body) dst = (String.mk (cs.map JsonCodePoint.toChar), none) := by
  obtain ⟨s, hs⟩ := decodeString_valid body.length body (body.length + 1) (body.length + 2)
    le_rfl hv (by omega)
  rw [decodeString_eq_contentString] at hs
  cases hc : contentString (body.length + 2) (body ++ ['"']) with
  | none => rw [hc] at hs; simp at hs
  | some p =>
    obtain ⟨cs, rest⟩ := p
    rw [hc] at hs
    simp only [Option.map_some', Option.some.injEq, Prod.mk.injEq] at hs
    obtain ⟨hs1, hs2⟩ := hs
    subst hs2
    refine ⟨cs, by simp only [JValue.content, hc], ?_⟩
    simp only [storeString, decodeString_eq_contentString, hc, Option.map_some']

/-- A literal whose content is made of scalar values only is stored as that
content. -/
theorem storeString_scalar_content (body : List Char) (s : List Char) (dst : String)
    (hc : JValue.content body = some (s.map JsonCodePoint.scalar)) :
    storeString (.string body) dst = (String.mk s, none) := by
  unfold JValue.content at hc
  cases hcs : contentString (body.length + 2) (body ++ ['"']) with
  | none => rw [hcs] at hc; simp at hc
  | some p =>
    obtain ⟨cs, rest⟩ := p
    rw [hcs] at hc
    cases rest with
    | cons r rs => simp at hc
    | nil =>
      simp only [Option.some.injEq] at hc
      subst hc
      have hid : (s.map JsonCodePoint.scalar).map JsonCodePoint.toChar = s := by
        rw [List.map_map]
        have : (JsonCodePoint.toChar ∘ JsonCodePoint.scalar) = id := by funext c; rfl
        simp [this]
      simp only [storeString, decodeString_eq_contentString, hcs, Option.map_some', hid]

/-- C8 (as amended): decoding the `typeOfRelation` member of a metering
point never fails on a JSON string; the value stored is the string's content
with U+FFFD in place of every surrogate that a `\u` escape writes without a
partner, hence exactly the content `s` when `s` has no such surrogate; a
literal without escapes is stored as it is written, the literal
`json.Marshal` writes for `s` is stored as `s`, and `"Bezug"` and
`"Einspeisung"` give `FROM_GRID` and `TO_GRID`. -/
theorem typeOfRelation_decoding (m : MeterInfoResponse) :
    (∀ body : List Char, JValue.validString body →
      ∃ cs : List JsonCodePoint, JValue.content body = some cs ∧
        storeMeterInfoField "typeOfRelation" (.string body) m =
          .ok ({ m with TypeOfRelation := String.mk (cs.map JsonCodePoint.toChar) }, none)) ∧
    (∀ (body : List Char) (s : List Char),
      JValue.content body = some (s.map JsonCodePoint.scalar) →
      storeMeterInfoField "typeOfRelation" (.string body) m =
        .ok ({ m with TypeOfRelation := String.mk s }, none)) ∧
    (∀ body : List Char, (∀ c ∈ body, c ≠ '"' ∧ c ≠ '\\' ∧ 0x20 ≤ c.toNat) →
      storeMeterInfoField "typeOfRelation" (.string body) m =
        .ok ({ m with TypeOfRelation := String.mk body }, none)) ∧
    (∀ s : String,
      storeMeterInfoField "typeOfRelation" (.string (stringBody (GoString.ofString s))) m =
        .ok ({ m with TypeOfRelation := s }, none)) ∧
    storeMeterInfoField "typeOfRelation" (.string "Bezug".toList) m =
      .ok ({ m with TypeOfRelation := FROM_GRID }, none) ∧
    storeMeterInfoField "typeOfRelation" (.string "Einspeisung".toList) m =
      .ok ({ m with TypeOfRelation := TO_GRID }, none) := by
  have hf : ∀ v, storeMeterInfoField "typeOfRelation" v m =
      .ok ({ m with TypeOfRelation := (storeString v m.TypeOfRelation).1 },
        (storeString v m.TypeOfRelation).2) := by
    intro v
    have h1 : ¬ ("typeOfRelation" = "meteringPointId") := by decide
    simp only [storeMeterInfoField, h1, if_false, if_true]
  refine ⟨?_, ?_, ?_, ?_, ?_, ?_⟩
  · intro body hv
    obtain ⟨cs, hc, hs⟩ := storeString_content body m.TypeOfRelation hv
    exact ⟨cs, hc, by rw [hf, hs]⟩
  · intro body s hc
    rw [hf, storeString_scalar_content body s _ hc]
  · intro body hp
    rw [hf, storeString_plain body _ hp]
  · intro s
    rw [hf, storeString_encoded]
  · rw [hf, storeString_plain _ _ (by decide)]
    rfl
  · rw [hf, storeString_plain _ _ (by decide)]
    rfl

theorem typeOfRelation_decoding_witness :
    JValue.validString "Ge\\u006deinschaft".toList ∧
    ∃ cs : List JsonCodePoint, JValue.content "Ge\\u006deinschaft".toList = some cs ∧
      storeMeterInfoField "typeOfRelation" (.string "Ge\\u006deinschaft".toList)
        sampleMeterInfo =
        .ok ({ sampleMeterInfo with
          TypeOfRelation := String.mk (cs.map JsonCodePoint.toChar) }, none) :=
  ⟨by decide,
   (typeOfRelation_decoding sampleMeterInfo).1 "Ge\\u006deinschaft".toList (by decide)⟩

/-- C8 as stated fails: the well-formed literal `"\ud800"` has the content of
one surrogate, `D800`, and is stored as U+FFFD. -/
theorem typeOfRelation_lone_surrogate :
    JValue.validString "\\ud800".toList ∧
    JValue.content "\\ud800".toList = some [JsonCodePoint.surrogate 0xd800] ∧
    storeMeterInfoField "typeOfRelation" (.string "\\ud800".toList) sampleMeterInfo =
      .ok ({ sampleMeterInfo with TypeOfRelation := "\ufffd" }, none) ∧
    "\ufffd".toList.map JsonCodePoint.scalar ≠ [JsonCodePoint.surrogate 0xd800] :=
  ⟨by decide, by decide, by rfl, by decide⟩

/-! ### Decode failures -/

theorem decodeBasicInfoMembers_saved (ms : List (String × JValue)) (b : BasicInfoResponse)
    (saved : Option String) (hs : saved.isSome = true) :
    (decodeBasicInfoMembers ms b saved).2.isSome = true := by
  induction ms generalizing b with
  | nil => simpa [decodeBasicInfoMembers] using hs
  | cons kv rest ih =>
    obtain ⟨key, v⟩ := kv
    simp only [decodeBasicInfoMembers]
    cases hff : findField basicInfoFields key with
    | none => exact ih b
    | some field =>
      simp only
      cases hst : storeBasicInfoField field v b with
      | error err => rfl
      | ok p =>
        obtain ⟨b1, err⟩ := p
        simp only [hs, if_true]
        exact ih b1

/-- A `registerDate` member that its parser rejects makes the decoding of the
object fail, wherever it stands and whatever was decoded before it. -/
theorem decodeBasicInfoMembers_bad_date (ms : List (String × JValue)) (v : JValue)
    (hm : ("registerDate", v) ∈ ms) (hv : LasmRegisterDate.UnmarshalJSON v.raw = none)
    (b : BasicInfoResponse) (saved : Option String) :
    (decodeBasicInfoMembers ms b saved).2.isSome = true := by
  induction ms generalizing b saved with
  | nil => simp at hm
  | cons kv rest ih =>
    obtain ⟨key, w⟩ := kv
    simp only [decodeBasicInfoMembers]
    rcases List.mem_cons.mp hm with h | h
    · obtain ⟨rfl, rfl⟩ := Prod.mk.inj h
      have hf : findField basicInfoFields "registerDate" = some "registerDate" := by decide
      have hst : storeBasicInfoField "registerDate" v b = .error "parsing time: cannot parse" := by
        have h1 : ¬ ("registerDate" = "gpNummer") := by decide
        have h2 : ¬ ("registerDate" = "titelVorgestellt") := by decide
        have h3 : ¬ ("registerDate" = "titelNachgestellt") := by decide
        have h4 : ¬ ("registerDate" = "anrede") := by decide
        have h5 : ¬ ("registerDate" = "vorname") := by decide
        have h6 : ¬ ("registerDate" = "nachname") := by decide
        simp only [storeBasicInfoField, h1, h2, h3, h4, h5, h6, if_false, if_true, hv]
      simp only [hf, hst]
      rfl
    · cases hff : findField basicInfoFields key with
      | none => exact ih h b saved
      | some field =>
        simp only
        cases hst : storeBasicInfoField field w b with
        | error err => rfl
        | ok p =>
          obtain ⟨b1, err⟩ := p
          exact ih h b1 _

/-- C7: each retrieval operation, on an HTTP-200 response whose body the
decoder rejects, returns the zero value (and a nil derived sequence for the
daily call) with an error, whatever the decoder had filled in before it
failed; in particular `GetBasicInfo` on an object whose `registerDate` its
parser rejects returns the empty `BasicInfoResponse` and an error. -/
theorem decode_failure_returns_zero {P F : Type} :
    (∀ (c : LasmClient P) (u : Unmarshal P BasicInfoResponse) (resp : Response P) (payload : P)
      (filled : BasicInfoResponse) (err : String),
      c.Get BASIC_INFO_URL = .ok resp → resp.StatusCode = 200 → resp.Body = .ok payload →
      u payload BasicInfoResponse.zero = (filled, some err) →
      GetBasicInfo c u = (BasicInfoResponse.zero,
        some ("could not unmarshal basic info payload: " ++ err))) ∧
    (∀ (c : LasmClient P) (u : Unmarshal P (Slice AccountInfoResponse)) (resp : Response P)
      (payload : P) (filled : Slice AccountInfoResponse) (err : String),
      c.Get ACCOUNT_INFO_URL = .ok resp → resp.StatusCode = 200 → resp.Body = .ok payload →
      u payload none = (filled, some err) →
      GetAccountInfos c u = (none,
        some ("could not unmarshal account info payload: " ++ err))) ∧
    (∀ (c : LasmClient P) (u : Unmarshal P (Slice MeterInfoResponse)) (accountId : String)
      (resp : Response P) (payload : P) (filled : Slice MeterInfoResponse) (err : String),
      c.Get (Sprintf METERING_POINT_INFO_URL [.str accountId]) = .ok resp →
      resp.StatusCode = 200 → resp.Body = .ok payload →
      u payload none = (filled, some err) →
      GetMeterInfos c u accountId = (none,
        some ("could not unmarshal meter info payload: " ++ err))) ∧
    (∀ (c : LasmClient P) (u : Unmarshal P (MeterValuesResponseDayMonth F)) (meterId : String)
      (date : CivilTime) (resp : Response P) (payload : P)
      (filled : MeterValuesResponseDayMonth F) (err : String),
      c.Get (dayRequestUrl meterId date) = .ok resp → resp.StatusCode = 200 →
      resp.Body = .ok payload →
      u payload MeterValuesResponseDayMonth.zero = (filled, some err) →
      GetConsumptionByMeterAndDate c u meterId date = (MeterValuesResponseDayMonth.zero, none,
        some ("could not unmarshal meter info payload: " ++ err))) ∧
    (∀ (c : LasmClient P) (u : Unmarshal P (MeterValuesResponseDayMonth F)) (meterId : String)
      (date : CivilTime) (resp : Response P) (payload : P)
      (filled : MeterValuesResponseDayMonth F) (err : String),
      c.Get (monthRequestUrl meterId date) = .ok resp → resp.StatusCode = 200 →
      resp.Body = .ok payload →
      u payload MeterValuesResponseDayMonth.zero = (filled, some err) →
      GetConsumptionByMeterAndYearAndMonth c u meterId date = (MeterValuesResponseDayMonth.zero,
        some ("could not unmarshal meter info payload: " ++ err))) ∧
    (∀ (c : LasmClient P) (u : Unmarshal P (MeterValuesResponseYear F)) (meterId : String)
      (date : CivilTime) (resp : Response P) (payload : P)
      (filled : MeterValuesResponseYear F) (err : String),
      c.Get (yearRequestUrl meterId date) = .ok resp → resp.StatusCode = 200 →
      resp.Body = .ok payload →
      u payload MeterValuesResponseYear.zero = (filled, some err) →
      GetConsumptionByMeterAndYear c u meterId date = (MeterValuesResponseYear.zero,
        some ("could not unmarshal meter info payload: " ++ err))) ∧
    (∀ (c : LasmClient JsonDoc) (resp : Response JsonDoc) (members : List (String × JValue))
      (v : JValue),
      c.Get BASIC_INFO_URL = .ok resp → resp.StatusCode = 200 →
      resp.Body = .ok (.object members) → ("registerDate", v) ∈ members →
      LasmRegisterDate.UnmarshalJSON v.raw = none →
      ∃ err, GetBasicInfo c unmarshalBasicInfo = (BasicInfoResponse.zero, some err)) := by
  refine ⟨?_, ?_, ?_, ?_, ?_, ?_, ?_⟩
  · intro c u resp payload filled err hget hst hbody hdec
    simp [GetBasicInfo, hget, hst, hbody, hdec, StatusOK, Errorf_basic_unmarshal]
  · intro c u resp payload filled err hget hst hbody hdec
    simp [GetAccountInfos, hget, hst, hbody, hdec, StatusOK, Errorf_account_unmarshal]
  · intro c u accountId resp payload filled err hget hst hbody hdec
    simp [GetMeterInfos, hget, hst, hbody, hdec, StatusOK, Errorf_meter_unmarshal]
  · intro c u meterId date resp payload filled err hget hst hbody hdec
    simp [GetConsumptionByMeterAndDate, hget, hst, hbody, hdec, StatusOK,
      Errorf_meter_unmarshal]
  · intro c u meterId date resp payload filled err hget hst hbody hdec
    simp [GetConsumptionByMeterAndYearAndMonth, hget, hst, hbody, hdec, StatusOK,
      Errorf_meter_unmarshal]
  · intro c u meterId date resp payload filled err hget hst hbody hdec
    simp [GetConsumptionByMeterAndYear, hget, hst, hbody, hdec, StatusOK,
      Errorf_meter_unmarshal]
  · intro c resp members v hget hst hbody hm hv
    have hsome := decodeBasicInfoMembers_bad_date members v hm hv BasicInfoResponse.zero none
    cases hdec : decodeBasicInfoMembers members BasicInfoResponse.zero none with
    | mk filled e =>
      rw [hdec] at hsome
      obtain ⟨err, rfl⟩ := Option.isSome_iff_exists.mp hsome
      refine ⟨"could not unmarshal basic info payload: " ++ err, ?_⟩
      simp [GetBasicInfo, hget, hst, hbody, unmarshalBasicInfo, hdec, StatusOK,
        Errorf_basic_unmarshal]

theorem decode_failure_returns_zero_witness :
    (unmarshalBasicInfo sampleBadBody BasicInfoResponse.zero).1.Name = "Max" ∧
    (∃ err, GetBasicInfo (constantClient 200 (.ok sampleBadBody)) unmarshalBasicInfo =
      (BasicInfoResponse.zero, some err)) ∧
    GetConsumptionByMeterAndDate (constantClient 200 (.ok ()))
      (decodeFailing sampleDay "unexpected end of JSON input") "AT001" sampleDate =
      (MeterValuesResponseDayMonth.zero, none,
        some ("could not unmarshal meter info payload: " ++ "unexpected end of JSON input")) :=
  ⟨by decide,
   (decode_failure_returns_zero (P := Unit) (F := Nat)).2.2.2.2.2.2 _ ⟨200, .ok sampleBadBody⟩ _
     (.string "2021-13-01T10:00:00".toList) rfl rfl rfl (by decide) (by decide),
   (decode_failure_returns_zero (P := Unit) (F := Nat)).2.2.2.1 _ _ "AT001" sampleDate
     ⟨200, .ok ()⟩ () sampleDay "unexpected end of JSON input" rfl rfl rfl rfl⟩

theorem Login_result_witness :
    Login (constantClient (P := Unit) 401 (.ok ())) (GoString.ofString "max")
      (GoString.ofString "secret") =
      some ("login failed, status code: " ++ formatInt 401) :=
  (Login_result (constantClient (P := Unit) 401 (.ok ())) (GoString.ofString "max")
    (GoString.ofString "secret")).2.1 ⟨401, .ok ()⟩ rfl (by decide)

end Lasm
